import Mathlib

/-!
Verification of the XIRR calculator (`src/xirr_calculator.py`).

Shallow embedding conventions:
* Calendar dates are integers (day numbers); `timedelta.days` is integer
  subtraction.
* Cash-flow amounts and benchmark prices are rationals (every Python float
  is a rational); discount rates live in `ℝ` because `xnpv` raises `1+rate`
  to a fractional power.
* The two scipy iterative solvers (`newton`, `brentq`) are numeric black
  boxes; they are embedded as oracle parameters (`Oracles`).  An oracle
  receives the objective function and the same arguments the Python code
  passes, and returns `some r` when scipy returns the float `r`, or `none`
  when scipy raises (the Python wraps every attempt in `try/except`).
  Whatever the actual scipy build does on a given input is one particular
  oracle, so a theorem quantified over all oracles covers the real program,
  and a theorem for a concrete oracle exhibits one realizable run.
* Everything else — input validation, sorting, the guard checks on solver
  results, the grid search, the failure classification, the benchmark
  replay and the statistics aggregation — is translated line by line.
-/

namespace XirrCalc

/-- Oracle interface for the two scipy solvers used by `calculate_xirr`.
`newton f g` models `scipy.optimize.newton(func=f, x0=g, fprime=..., maxiter=100, tol=1e-6)`;
`brent f lo hi` models `scipy.optimize.brentq(f, lo, hi, maxiter=200, xtol=1e-6)`.
`none` models the call raising an exception. -/
structure Oracles where
  newton : (ℝ → ℝ) → ℝ → Option ℝ
  brent : (ℝ → ℝ) → ℝ → ℝ → Option ℝ

/-- The distinct `ValueError`s raised by `calculate_xirr`:
the two input-validation errors, the extreme-loss classification and
generic non-convergence. -/
inductive XirrError where
  | lengthMismatch
  | tooFewCashFlows
  | extremeLoss
  | noConvergence
deriving DecidableEq, Repr

/-- Python tuple comparison used by `sorted(zip(dates, cash_flows))`:
lexicographic on (date, amount). -/
def dateAmountLE (a b : ℤ × ℚ) : Bool :=
  a.1 < b.1 || (a.1 == b.1 && a.2 ≤ b.2)

/-- `sorted_data = sorted(zip(dates, cash_flows))` (lines 48-51). -/
def sortedFlows (cash_flows : List ℚ) (dates : List ℤ) : List (ℤ × ℚ) :=
  (dates.zip cash_flows).mergeSort dateAmountLE

/-- `years = [(date - first_date).days / 365.25 for date in dates]` (lines 53-55),
paired with the corresponding cash flow: entry `(cf, yearsSinceFirst)`. -/
def yearsFrom (sorted : List (ℤ × ℚ)) : List (ℚ × ℚ) :=
  match sorted with
  | [] => []
  | (d0, _) :: _ => sorted.map (fun p => (p.2, ((p.1 - d0 : ℤ) : ℚ) / (1461 / 4)))

/-- `rate = np.clip(rate, -0.9999, 100)` (line 60). -/
noncomputable def clip (r : ℝ) : ℝ := min (max r (-0.9999)) 100

/-- `xnpv(rate) = sum(cf / (1 + rate) ** year ...)` after clipping (lines 57-64).
Over `ℝ` the sum is total (the clipped base is positive), so the
`OverflowError` branch is dead in the idealization. -/
noncomputable def xnpv (flows : List (ℚ × ℚ)) (r : ℝ) : ℝ :=
  (flows.map (fun p => (p.1 : ℝ) / (1 + clip r) ^ ((p.2 : ℚ) : ℝ))).sum

/-- `presentValue` of the whole input as the spec describes it: sort, measure
years from the earliest date, discount. -/
noncomputable def presentValue (cash_flows : List ℚ) (dates : List ℤ) (r : ℝ) : ℝ :=
  xnpv (yearsFrom (sortedFlows cash_flows dates)) r

/-- Newton initial guesses `[0.1, 0.0, -0.5, 0.5, 1.0]` (line 77). -/
noncomputable def guesses : List ℝ := [0.1, 0, -0.5, 0.5, 1]

/-- Method 1 (lines 77-90): try `newton` from each guess in order; a returned
root is accepted iff `abs(xnpv(result)) < 1.0 and -0.99 < result < 10`;
an exception or a rejected result moves on to the next guess. -/
noncomputable def newtonStage (f : ℝ → ℝ) (no : (ℝ → ℝ) → ℝ → Option ℝ) :
    List ℝ → Option ℝ
  | [] => none
  | g :: gs =>
    match no f g with
    | some r =>
      if |f r| < 1 ∧ -0.99 < r ∧ r < 10 then some r else newtonStage f no gs
    | none => newtonStage f no gs

/-- The nine Brent brackets, in loop order: `lower_bound` outer over
`[-0.999, -0.99, -0.95]`, `upper_bound` inner over `[10, 5, 2]` (lines 93-94). -/
noncomputable def brackets : List (ℝ × ℝ) :=
  [(-0.999, 10), (-0.999, 5), (-0.999, 2),
   (-0.99, 10), (-0.99, 5), (-0.99, 2),
   (-0.95, 10), (-0.95, 5), (-0.95, 2)]

/-- Method 2 (lines 92-104): for each bracket, run `brentq` only when
`xnpv(lo) * xnpv(hi) < 0`; accept the result iff `abs(xnpv(result)) < 1.0`. -/
noncomputable def brentStage (f : ℝ → ℝ) (bo : (ℝ → ℝ) → ℝ → ℝ → Option ℝ) :
    List (ℝ × ℝ) → Option ℝ
  | [] => none
  | (lo, hi) :: rest =>
    if f lo * f hi < 0 then
      match bo f lo hi with
      | some r => if |f r| < 1 then some r else brentStage f bo rest
      | none => brentStage f bo rest
    else brentStage f bo rest

/-- `np.linspace(lo, hi, n)`: `n` evenly spaced points including both
endpoints.  Exact rational arithmetic; kept in `ℚ` so the grid is decidable. -/
def linspaceQ (lo hi : ℚ) (n : ℕ) : List ℚ :=
  (List.range n).map (fun (k : ℕ) => lo + (k : ℚ) * ((hi - lo) / ((n : ℚ) - 1)))

/-- The coarse grid `np.linspace(-0.99, 5, 2000)` (line 111). -/
def coarseGrid : List ℚ := linspaceQ (-0.99) 5 2000

/-- The refinement grid
`np.linspace(max(-0.99, best_rate - 0.5), min(5, best_rate + 0.5), 1000)` (line 123). -/
def fineGrid (br : ℚ) : List ℚ :=
  linspaceQ (max (-0.99) (br - 0.5)) (min 5 (br + 0.5)) 1000

/-- The running `(best_rate, best_npv)` accumulator of the grid search,
starting from `(None, inf)` and updated by strict improvement (lines 107-131). -/
noncomputable def gridFold (f : ℝ → ℝ) (pts : List ℚ) (acc : Option (ℚ × ℝ)) :
    Option (ℚ × ℝ) :=
  pts.foldl (fun a p =>
    match a with
    | none => some (p, |f (p : ℝ)|)
    | some (br, bn) => if |f (p : ℝ)| < bn then some (p, |f (p : ℝ)|) else some (br, bn))
    acc

/-- Method 3 (lines 106-131): coarse grid search, then — only when the coarse
best is below 100 — a refinement pass continuing from the coarse best. -/
noncomputable def gridBest (f : ℝ → ℝ) : Option (ℚ × ℝ) :=
  match gridFold f coarseGrid none with
  | some (br, bn) =>
    if bn < 100 then gridFold f (fineGrid br) (some (br, bn)) else some (br, bn)
  | none => none

open Classical in
/-- Failure classification (lines 136-149):
`min(|xnpv(-0.99)|, |xnpv(5)|, best_npv if best_rate else inf) > 1000`
raises the extreme-loss error, otherwise the generic non-convergence error.
`best_npv if best_rate else float('inf')` is Python truthiness: the best grid
value participates only when `best_rate` is neither `None` nor exactly `0.0`. -/
noncomputable def classify (f : ℝ → ℝ) (best : Option (ℚ × ℝ)) : Except XirrError ℝ :=
  if 1000 < |f (-0.99)| ∧ 1000 < |f 5| ∧
      (∀ br bn, best = some (br, bn) → br ≠ 0 → 1000 < bn) then
    .error .extremeLoss
  else
    .error .noConvergence

/-- The fallback cascade applied to the objective `f = xnpv flows`. -/
noncomputable def solveCascade (f : ℝ → ℝ) (oc : Oracles) : Except XirrError ℝ :=
  match newtonStage f oc.newton guesses with
  | some r => .ok r
  | none =>
    match brentStage f oc.brent brackets with
    | some r => .ok r
    | none =>
      match gridBest f with
      | some (br, bn) =>
        if bn < 100 then .ok (br : ℝ) else classify f (some (br, bn))
      | none => classify f none

/-- `calculate_xirr(cash_flows, dates)` (lines 30-149): validate, sort,
build the objective, run the cascade. -/
noncomputable def calculate_xirr (cash_flows : List ℚ) (dates : List ℤ)
    (oc : Oracles) : Except XirrError ℝ :=
  if cash_flows.length ≠ dates.length then .error .lengthMismatch
  else if cash_flows.length < 2 then .error .tooFewCashFlows
  else solveCascade (xnpv (yearsFrom (sortedFlows cash_flows dates))) oc

/-! ### Benchmark replay engine (`calculate_nifty50_portfolio`, lines 189-318) -/

/-- One row of the Nifty-50 price series. -/
structure PricePoint where
  date : ℤ
  close : ℚ
deriving DecidableEq, Repr

/-- Price lookup (lines 236-250): exact date match first (`.iloc[0]` of the
filter = first row in series order); else the first row strictly after the
date; else the last row of the series. -/
def lookupPrice (nifty_data : List PricePoint) (d : ℤ) : Option ℚ :=
  match nifty_data.filter (fun p => p.date == d) with
  | p :: _ => some p.close
  | [] =>
    match nifty_data.filter (fun p => d < p.date) with
    | p :: _ => some p.close
    | [] => nifty_data.getLast?.map PricePoint.close

/-- A replay transaction: investments come from `outflows`
(`type: investment`), withdrawals from `inflows` (`type: withdrawal`). -/
structure Txn where
  date : ℤ
  amount : ℚ
  isWithdrawal : Bool
deriving DecidableEq, Repr

/-- Bool date order for the stable `sorted(transactions, key=lambda x: x['date'])`. -/
def txnDateLE (a b : Txn) : Bool := a.date ≤ b.date

/-- Build and sort the transaction timeline (lines 206-226): outflows first,
then inflows, then a stable sort by date alone. -/
def buildTxns (outflows inflows : List (ℤ × ℚ)) : List Txn :=
  ((outflows.map (fun p => ⟨p.1, p.2, false⟩)) ++
    (inflows.map (fun p => ⟨p.1, p.2, true⟩)) : List Txn).mergeSort txnDateLE

/-- Process one transaction (lines 233-277): resolve a price (skip if absent
or zero); investments buy `abs(amount)/price` units; withdrawals sell the
pro-rata fraction `withdrawal/currentValue` of the units, clamped at zero. -/
def replayStep (nifty_data : List PricePoint) (total_units : ℚ) (t : Txn) : ℚ :=
  match lookupPrice nifty_data t.date with
  | none => total_units
  | some price =>
    if price = 0 then total_units
    else if t.isWithdrawal = false then
      total_units + |t.amount| / price
    else if 0 < total_units then
      let current_portfolio_value := total_units * price
      if 0 < current_portfolio_value then
        let withdrawal_percentage := |t.amount| / current_portfolio_value
        let units_to_sell := total_units * withdrawal_percentage
        let remaining := total_units - units_to_sell
        if remaining < 0 then 0 else remaining
      else total_units
    else total_units

/-- The running unit balance over the whole timeline starting from
`total_units = 0` (line 229). -/
def replayUnits (nifty_data : List PricePoint) (txns : List Txn) : ℚ :=
  txns.foldl (replayStep nifty_data) 0

/-- The dictionary returned by `calculate_nifty50_portfolio` (lines 309-314). -/
structure NiftyStats where
  current_value : ℚ
  xirr_percentage : Option ℝ
  units : ℚ
  latest_price : ℚ

/-- `calculate_nifty50_portfolio(outflows, inflows, nifty_data)`
(lines 189-318): `None` when the price series is missing or empty; otherwise
replay the timeline, value the final units at the last price, and run the
synthetic series (same dates/amounts plus the terminal value dated now)
through `calculate_xirr`. -/
noncomputable def calculate_nifty50_portfolio (outflows inflows : List (ℤ × ℚ))
    (nifty_data : Option (List PricePoint)) (today : ℤ) (oc : Oracles) :
    Option NiftyStats :=
  match nifty_data with
  | none => none
  | some ps =>
    if ps.isEmpty then none
    else
      let total_units := replayUnits ps (buildTxns outflows inflows)
      let latest_price := (ps.getLast?.map PricePoint.close).getD 0
      let current_value := total_units * latest_price
      let cfs := outflows.map Prod.snd ++ inflows.map Prod.snd ++ [current_value]
      let ds := outflows.map Prod.fst ++ inflows.map Prod.fst ++ [today]
      let nifty_xirr : Option ℝ :=
        match calculate_xirr cfs ds oc with
        | .ok r => some (r * 100)
        | .error _ => none
      some ⟨current_value, nifty_xirr, total_units, latest_price⟩

/-! ### Portfolio statistics aggregator (`calculate_portfolio_stats`, lines 629-703) -/

/-- The fields of the stats dictionary relevant to the claims. -/
structure StatsRecord where
  total_invested : ℚ
  total_withdrawn : ℚ
  current_value : ℚ
  net_gain : ℚ
  simple_return : ℚ
  xirr_percentage : Option ℝ
  xirr_error : Option XirrError
  nifty50_stats : Option NiftyStats

/-- `calculate_portfolio_stats(outflows, inflows, current_value)`:
simple-return arithmetic, the primary XIRR (computed first, before any
benchmark work), then the optional Nifty-50 comparison whose failure or
absence is swallowed (`nifty50_stats = None`). -/
noncomputable def calculate_portfolio_stats (outflows inflows : List (ℤ × ℚ))
    (current_value : ℚ) (today : ℤ) (nifty_data : Option (List PricePoint))
    (oc : Oracles) : StatsRecord :=
  let total_invested := -(outflows.map Prod.snd).sum
  let total_withdrawn := (inflows.map Prod.snd).sum
  let net_gain := current_value + total_withdrawn - total_invested
  let simple_return := if 0 < total_invested then net_gain / total_invested * 100 else 0
  let cfs := outflows.map Prod.snd ++ inflows.map Prod.snd ++ [current_value]
  let ds := outflows.map Prod.fst ++ inflows.map Prod.fst ++ [today]
  let x := calculate_xirr cfs ds oc
  { total_invested := total_invested
    total_withdrawn := total_withdrawn
    current_value := current_value
    net_gain := net_gain
    simple_return := simple_return
    xirr_percentage := match x with | .ok r => some (r * 100) | .error _ => none
    xirr_error := match x with | .ok _ => none | .error e => some e
    nifty50_stats :=
      if 0 < outflows.length then
        calculate_nifty50_portfolio outflows inflows nifty_data today oc
      else none }

/-! ### Helper lemmas: sorting -/

lemma dateAmountLE_trans (a b c : ℤ × ℚ) (hab : dateAmountLE a b = true)
    (hbc : dateAmountLE b c = true) : dateAmountLE a c = true := by
  simp only [dateAmountLE, Bool.or_eq_true, decide_eq_true_eq, Bool.and_eq_true,
    beq_iff_eq] at *
  rcases hab with h1 | ⟨h1, h2⟩ <;> rcases hbc with h3 | ⟨h3, h4⟩
  · exact Or.inl (h1.trans h3)
  · exact Or.inl (h3 ▸ h1)
  · exact Or.inl (h1 ▸ h3)
  · exact Or.inr ⟨h1.trans h3, h2.trans h4⟩

lemma dateAmountLE_total (a b : ℤ × ℚ) :
    (dateAmountLE a b || dateAmountLE b a) = true := by
  simp only [dateAmountLE, Bool.or_eq_true, decide_eq_true_eq, Bool.and_eq_true,
    beq_iff_eq]
  rcases lt_trichotomy a.1 b.1 with h | h | h
  · exact Or.inl (Or.inl h)
  · rcases le_total a.2 b.2 with h2 | h2
    · exact Or.inl (Or.inr ⟨h, h2⟩)
    · exact Or.inr (Or.inr ⟨h.symm, h2⟩)
  · exact Or.inr (Or.inl h)

lemma dateAmountLE_antisymm (a b : ℤ × ℚ) (hab : dateAmountLE a b = true)
    (hba : dateAmountLE b a = true) : a = b := by
  simp only [dateAmountLE, Bool.or_eq_true, decide_eq_true_eq, Bool.and_eq_true,
    beq_iff_eq] at *
  rcases hab with h1 | ⟨h1, h2⟩ <;> rcases hba with h3 | ⟨h3, h4⟩
  · exact absurd h3 (lt_asymm h1)
  · exact absurd h1 (h3 ▸ lt_irrefl _)
  · exact absurd h3 (h1 ▸ lt_irrefl _)
  · exact Prod.ext h1 (le_antisymm h2 h4)

/-- Sorting a list that is already sorted for the Python tuple order
returns it unchanged. -/
lemma sortedFlows_of_sorted (cash_flows : List ℚ) (dates : List ℤ)
    (h : (dates.zip cash_flows).Pairwise (fun a b => dateAmountLE a b = true)) :
    sortedFlows cash_flows dates = dates.zip cash_flows := by
  haveI : IsAntisymm (ℤ × ℚ) (fun a b => dateAmountLE a b = true) :=
    ⟨dateAmountLE_antisymm⟩
  exact List.eq_of_perm_of_sorted (List.mergeSort_perm _ _)
    (List.sorted_mergeSort dateAmountLE_trans dateAmountLE_total _) h

/-! ### Helper lemmas: the solver stages -/

/-- A result of the Newton stage always passed the guard
`abs(xnpv(result)) < 1.0 and -0.99 < result < 10`. -/
lemma newtonStage_guard {f : ℝ → ℝ} {no : (ℝ → ℝ) → ℝ → Option ℝ} :
    ∀ {gs : List ℝ} {r : ℝ}, newtonStage f no gs = some r →
      |f r| < 1 ∧ -0.99 < r ∧ r < 10 := by
  intro gs
  induction gs with
  | nil => intro r h; simp [newtonStage] at h
  | cons g gs ih =>
    intro r h
    rw [newtonStage] at h
    rcases hg : no f g with _ | r0
    · rw [hg] at h; exact ih h
    · rw [hg] at h
      dsimp only at h
      by_cases hc : |f r0| < 1 ∧ -0.99 < r0 ∧ r0 < 10
      · rw [if_pos hc] at h; cases h; exact hc
      · rw [if_neg hc] at h; exact ih h

/-- If the guard can never be satisfied, the Newton stage fails for every
oracle behavior. -/
lemma newtonStage_eq_none {f : ℝ → ℝ} (no : (ℝ → ℝ) → ℝ → Option ℝ)
    (h : ∀ r, ¬(|f r| < 1 ∧ -0.99 < r ∧ r < 10)) (gs : List ℝ) :
    newtonStage f no gs = none := by
  induction gs with
  | nil => rfl
  | cons g gs ih =>
    rw [newtonStage]
    rcases hg : no f g with _ | r0
    · exact ih
    · dsimp only
      rw [if_neg (h r0)]; exact ih

/-- A result of the Brent stage comes from some bracket with a sign change
and passed the guard `abs(xnpv(result)) < 1.0`. -/
lemma brentStage_spec {f : ℝ → ℝ} {bo : (ℝ → ℝ) → ℝ → ℝ → Option ℝ} :
    ∀ {bs : List (ℝ × ℝ)} {r : ℝ}, brentStage f bo bs = some r →
      ∃ lo hi, (lo, hi) ∈ bs ∧ f lo * f hi < 0 ∧ bo f lo hi = some r ∧ |f r| < 1 := by
  intro bs
  induction bs with
  | nil => intro r h; simp [brentStage] at h
  | cons b rest ih =>
    intro r h
    obtain ⟨lo, hi⟩ := b
    rw [brentStage] at h
    by_cases hs : f lo * f hi < 0
    · rw [if_pos hs] at h
      rcases hb : bo f lo hi with _ | r0
      · rw [hb] at h
        obtain ⟨lo2, hi2, hmem, h1, h2, h3⟩ := ih h
        exact ⟨lo2, hi2, List.mem_cons_of_mem _ hmem, h1, h2, h3⟩
      · rw [hb] at h
        dsimp only at h
        by_cases hg : |f r0| < 1
        · rw [if_pos hg] at h
          cases h
          exact ⟨lo, hi, List.mem_cons_self _ _, hs, hb, hg⟩
        · rw [if_neg hg] at h
          obtain ⟨lo2, hi2, hmem, h1, h2, h3⟩ := ih h
          exact ⟨lo2, hi2, List.mem_cons_of_mem _ hmem, h1, h2, h3⟩
    · rw [if_neg hs] at h
      obtain ⟨lo2, hi2, hmem, h1, h2, h3⟩ := ih h
      exact ⟨lo2, hi2, List.mem_cons_of_mem _ hmem, h1, h2, h3⟩

/-- If no bracket shows a sign change, the Brent stage fails for every
oracle behavior. -/
lemma brentStage_eq_none {f : ℝ → ℝ} (bo : (ℝ → ℝ) → ℝ → ℝ → Option ℝ)
    {bs : List (ℝ × ℝ)} (h : ∀ lo hi, (lo, hi) ∈ bs → ¬(f lo * f hi < 0)) :
    brentStage f bo bs = none := by
  induction bs with
  | nil => rfl
  | cons b rest ih =>
    obtain ⟨lo, hi⟩ := b
    rw [brentStage, if_neg (h lo hi (List.mem_cons_self _ _))]
    exact ih (fun lo2 hi2 hm => h lo2 hi2 (List.mem_cons_of_mem _ hm))

/-- Every bracket lies inside `[-0.999, 10]`. -/
lemma brackets_bounds {lo hi : ℝ} (h : (lo, hi) ∈ brackets) :
    -0.999 ≤ lo ∧ hi ≤ 10 := by
  simp only [brackets, List.mem_cons, List.mem_singleton, Prod.mk.injEq,
    List.not_mem_nil, or_false] at h
  rcases h with ⟨h1, h2⟩ | ⟨h1, h2⟩ | ⟨h1, h2⟩ | ⟨h1, h2⟩ | ⟨h1, h2⟩ | ⟨h1, h2⟩ |
    ⟨h1, h2⟩ | ⟨h1, h2⟩ | ⟨h1, h2⟩ <;> subst h1 <;> subst h2 <;> norm_num

/-! ### Helper lemmas: the grid search -/

lemma gridFold_some {f : ℝ → ℝ} :
    ∀ (pts : List ℚ) (b : ℚ) (bn : ℝ),
      ∃ b2 bn2, gridFold f pts (some (b, bn)) = some (b2, bn2) ∧ bn2 ≤ bn := by
  intro pts
  induction pts with
  | nil => intro b bn; exact ⟨b, bn, rfl, le_rfl⟩
  | cons p rest ih =>
    intro b bn
    rw [gridFold, List.foldl_cons]
    by_cases hc : |f (p : ℝ)| < bn
    · obtain ⟨b2, bn2, h1, h2⟩ := ih p (|f (p : ℝ)|)
      exact ⟨b2, bn2, by simpa [gridFold, hc] using h1, h2.trans hc.le⟩
    · obtain ⟨b2, bn2, h1, h2⟩ := ih b bn
      exact ⟨b2, bn2, by simpa [gridFold, hc] using h1, h2⟩

/-- The grid accumulator always records the objective value at the recorded
rate, and the recorded rate comes from the points or from the accumulator. -/
lemma gridFold_inv {f : ℝ → ℝ} :
    ∀ (pts : List ℚ) (acc : Option (ℚ × ℝ)) (b : ℚ) (bn : ℝ),
      gridFold f pts acc = some (b, bn) →
      acc = some (b, bn) ∨ (b ∈ pts ∧ bn = |f (b : ℝ)|) := by
  intro pts
  induction pts with
  | nil => intro acc b bn h; exact Or.inl h
  | cons p rest ih =>
    intro acc b bn h
    rw [gridFold, List.foldl_cons] at h
    rcases acc with _ | ⟨b0, bn0⟩
    · rcases ih (some (p, |f (p : ℝ)|)) b bn (by simpa [gridFold] using h) with
        h2 | ⟨h2, h3⟩
      · cases h2
        exact Or.inr ⟨List.mem_cons_self _ _, rfl⟩
      · exact Or.inr ⟨List.mem_cons_of_mem _ h2, h3⟩
    · by_cases hc : |f (p : ℝ)| < bn0
      · rcases ih (some (p, |f (p : ℝ)|)) b bn (by simpa [gridFold, hc] using h) with
          h2 | ⟨h2, h3⟩
        · cases h2
          exact Or.inr ⟨List.mem_cons_self _ _, rfl⟩
        · exact Or.inr ⟨List.mem_cons_of_mem _ h2, h3⟩
      · rcases ih (some (b0, bn0)) b bn (by simpa [gridFold, hc] using h) with
          h2 | ⟨h2, h3⟩
        · exact Or.inl h2
        · exact Or.inr ⟨List.mem_cons_of_mem _ h2, h3⟩

/-- Lower bound on the recorded best value when every grid point evaluates
above the bound. -/
lemma gridFold_lb {f : ℝ → ℝ} {c : ℝ} :
    ∀ (pts : List ℚ) (acc : Option (ℚ × ℝ)),
      (∀ p ∈ pts, c < |f (p : ℝ)|) →
      (∀ b bn, acc = some (b, bn) → c < bn) →
      ∀ b bn, gridFold f pts acc = some (b, bn) → c < bn := by
  intro pts
  induction pts with
  | nil => intro acc _ hacc b bn h; exact hacc b bn h
  | cons p rest ih =>
    intro acc hpts hacc b bn h
    rw [gridFold, List.foldl_cons] at h
    have hp := hpts p (List.mem_cons_self _ _)
    have hrest : ∀ q ∈ rest, c < |f (q : ℝ)| :=
      fun q hq => hpts q (List.mem_cons_of_mem _ hq)
    rcases acc with _ | ⟨b0, bn0⟩
    · exact ih (some (p, |f (p : ℝ)|)) hrest
        (by rintro b1 bn1 h1; cases h1; exact hp) b bn (by simpa [gridFold] using h)
    · have hbn0 := hacc b0 bn0 rfl
      by_cases hc : |f (p : ℝ)| < bn0
      · exact ih (some (p, |f (p : ℝ)|)) hrest
          (by rintro b1 bn1 h1; cases h1; exact hp) b bn (by simpa [gridFold, hc] using h)
      · exact ih (some (b0, bn0)) hrest
          (by rintro b1 bn1 h1; cases h1; exact hbn0) b bn (by simpa [gridFold, hc] using h)

/-- When no grid point strictly improves on the accumulator, the fold keeps it. -/
lemma gridFold_no_improve {f : ℝ → ℝ} :
    ∀ (pts : List ℚ) (b : ℚ) (bn : ℝ), (∀ p ∈ pts, ¬(|f (p : ℝ)| < bn)) →
      gridFold f pts (some (b, bn)) = some (b, bn) := by
  intro pts
  induction pts with
  | nil => intro b bn _; rfl
  | cons p rest ih =>
    intro b bn h
    have h1 : gridFold f (p :: rest) (some (b, bn)) = gridFold f rest (some (b, bn)) := by
      rw [gridFold, List.foldl_cons]
      dsimp only
      rw [if_neg (h p (List.mem_cons_self _ _))]
      rfl
    rw [h1]
    exact ih b bn (fun q hq => h q (List.mem_cons_of_mem _ hq))

/-- When the objective values strictly decrease along the point list and beat
the accumulator, the fold lands on the last point. -/
lemma gridFold_last {f : ℝ → ℝ} :
    ∀ (pts : List ℚ) (hne : pts ≠ [])
      (hmono : pts.Pairwise (fun (p q : ℚ) => |f (q : ℝ)| < |f (p : ℝ)|))
      (acc : Option (ℚ × ℝ))
      (hacc : ∀ b bn, acc = some (b, bn) → ∀ p ∈ pts, |f (p : ℝ)| < bn),
      gridFold f pts acc = some (pts.getLast hne, |f ((pts.getLast hne : ℚ) : ℝ)|) := by
  intro pts
  induction pts with
  | nil => intro hne; exact absurd rfl hne
  | cons p rest ih =>
    intro hne hmono acc hacc
    rw [List.pairwise_cons] at hmono
    have hstep : gridFold f (p :: rest) acc =
        gridFold f rest (some (p, |f (p : ℝ)|)) := by
      rcases acc with _ | ⟨b0, bn0⟩
      · rfl
      · have := hacc b0 bn0 rfl p (List.mem_cons_self _ _)
        simp [gridFold, this]
    rw [hstep]
    cases rest with
    | nil => simp [gridFold, List.getLast_singleton]
    | cons q rest2 =>
      have hne2 : q :: rest2 ≠ [] := List.cons_ne_nil _ _
      have hlast : (p :: q :: rest2).getLast hne = (q :: rest2).getLast hne2 :=
        List.getLast_cons hne2
      rw [hlast]
      exact ih hne2 hmono.2 (some (p, |f (p : ℝ)|))
        (by rintro b1 bn1 h1; cases h1; exact hmono.1)

/-! ### Helper lemmas: linspace -/

lemma linspaceQ_mem_bounds {lo hi : ℚ} {n : ℕ} (hlo : lo ≤ hi) (hn : 2 ≤ n)
    {p : ℚ} (hp : p ∈ linspaceQ lo hi n) : lo ≤ p ∧ p ≤ hi := by
  simp only [linspaceQ, List.mem_map, List.mem_range] at hp
  obtain ⟨k, hk, rfl⟩ := hp
  have hn1 : (0 : ℚ) < (n : ℚ) - 1 := by
    have : (2 : ℚ) ≤ (n : ℚ) := by exact_mod_cast hn
    linarith
  have hstep : 0 ≤ (hi - lo) / ((n : ℚ) - 1) :=
    div_nonneg (by linarith) (le_of_lt hn1)
  have hk0 : (0 : ℚ) ≤ (k : ℚ) := Nat.cast_nonneg k
  constructor
  · nlinarith
  · have hk1 : (k : ℚ) ≤ (n : ℚ) - 1 := by
      have : (k : ℚ) + 1 ≤ (n : ℚ) := by exact_mod_cast hk
      linarith
    have : (k : ℚ) * ((hi - lo) / ((n : ℚ) - 1)) ≤
        ((n : ℚ) - 1) * ((hi - lo) / ((n : ℚ) - 1)) :=
      mul_le_mul_of_nonneg_right hk1 hstep
    have heq : ((n : ℚ) - 1) * ((hi - lo) / ((n : ℚ) - 1)) = hi - lo := by
      field_simp
    linarith [heq ▸ this]

lemma linspaceQ_ne_nil {lo hi : ℚ} {n : ℕ} (hn : 0 < n) : linspaceQ lo hi n ≠ [] := by
  simp [linspaceQ, List.map_eq_nil_iff, List.range_eq_nil]
  omega

lemma linspaceQ_getLast {lo hi : ℚ} {n : ℕ} (hn : 2 ≤ n) (hne : linspaceQ lo hi n ≠ []) :
    (linspaceQ lo hi n).getLast hne = hi := by
  have hr : List.range n ≠ [] := by simp [List.range_eq_nil]; omega
  have h1 : (linspaceQ lo hi n).getLast hne =
      lo + ((List.range n).getLast hr : ℚ) * ((hi - lo) / ((n : ℚ) - 1)) := by
    simp [linspaceQ, List.getLast_map]
  rw [h1, List.getLast_range]
  have hn1 : ((n : ℚ) - 1) ≠ 0 := by
    have : (2 : ℚ) ≤ (n : ℚ) := by exact_mod_cast hn
    intro h; rw [sub_eq_zero] at h; rw [h] at this; norm_num at this
  have hcast : ((n - 1 : ℕ) : ℚ) = (n : ℚ) - 1 := by
    have : (1 : ℕ) ≤ n := by omega
    push_cast [Nat.cast_sub this]
    ring
  rw [hcast]
  field_simp

lemma linspaceQ_pairwise {lo hi : ℚ} {n : ℕ} (h : lo < hi) (hn : 2 ≤ n) :
    (linspaceQ lo hi n).Pairwise (· < ·) := by
  have hn1 : (0 : ℚ) < (n : ℚ) - 1 := by
    have : (2 : ℚ) ≤ (n : ℚ) := by exact_mod_cast hn
    linarith
  have hstep : 0 < (hi - lo) / ((n : ℚ) - 1) := by
    apply div_pos <;> linarith
  unfold linspaceQ
  rw [List.pairwise_map]
  apply List.Pairwise.imp_of_mem _ (List.pairwise_lt_range n)
  intro a b _ _ hab
  have : (a : ℚ) < (b : ℚ) := by exact_mod_cast hab
  nlinarith

/-- The coarse grid never contains the rate exactly 0, so the Python
truthiness test `if best_rate` cannot silently discard the grid value on the
classification path. -/
lemma coarseGrid_ne_zero {p : ℚ} (hp : p ∈ coarseGrid) : p ≠ 0 := by
  simp only [coarseGrid, linspaceQ, List.mem_map, List.mem_range] at hp
  obtain ⟨k, hk, rfl⟩ := hp
  intro h
  have h599 : (599 : ℚ) * k = 197901 := by
    have hstep : ((5 : ℚ) - (-0.99)) / ((2000 : ℕ) - 1) = 599 / 199900 := by
      norm_num
    rw [hstep] at h
    have : (k : ℚ) * (599 / 199900) = 0.99 := by linarith
    nlinarith
  have : (599 : ℚ) * k = ((599 * k : ℕ) : ℚ) := by push_cast; ring
  rw [this] at h599
  have : (599 * k : ℕ) = 197901 := by exact_mod_cast h599
  omega

/-! ### Helper lemmas: the cascade -/

lemma classify_cases (f : ℝ → ℝ) (best : Option (ℚ × ℝ)) :
    classify f best = .error .extremeLoss ∨ classify f best = .error .noConvergence := by
  unfold classify
  split
  · exact Or.inl rfl
  · exact Or.inr rfl

lemma solveCascade_newton {f : ℝ → ℝ} {oc : Oracles} {r : ℝ}
    (hn : newtonStage f oc.newton guesses = some r) :
    solveCascade f oc = .ok r := by
  rw [solveCascade, hn]

lemma solveCascade_brent {f : ℝ → ℝ} {oc : Oracles} {r : ℝ}
    (hn : newtonStage f oc.newton guesses = none)
    (hb : brentStage f oc.brent brackets = some r) :
    solveCascade f oc = .ok r := by
  rw [solveCascade, hn]
  dsimp only
  rw [hb]

lemma solveCascade_grid {f : ℝ → ℝ} {oc : Oracles} {br : ℚ} {bn : ℝ}
    (hn : newtonStage f oc.newton guesses = none)
    (hb : brentStage f oc.brent brackets = none)
    (hg : gridBest f = some (br, bn)) (hc : bn < 100) :
    solveCascade f oc = .ok (br : ℝ) := by
  rw [solveCascade, hn]
  dsimp only
  rw [hb]
  dsimp only
  rw [hg]
  dsimp only
  rw [if_pos hc]

lemma solveCascade_classify {f : ℝ → ℝ} {oc : Oracles} {br : ℚ} {bn : ℝ}
    (hn : newtonStage f oc.newton guesses = none)
    (hb : brentStage f oc.brent brackets = none)
    (hg : gridBest f = some (br, bn)) (hc : ¬ bn < 100) :
    solveCascade f oc = classify f (some (br, bn)) := by
  rw [solveCascade, hn]
  dsimp only
  rw [hb]
  dsimp only
  rw [hg]
  dsimp only
  rw [if_neg hc]

/-- Anatomy of a cascade failure: both solver stages failed and the
classification ran on the final grid accumulator. -/
lemma solveCascade_eq_error {f : ℝ → ℝ} {oc : Oracles} {e : XirrError}
    (h : solveCascade f oc = .error e) :
    newtonStage f oc.newton guesses = none ∧
    brentStage f oc.brent brackets = none ∧
    ((∃ br bn, gridBest f = some (br, bn) ∧ ¬ bn < 100 ∧
        classify f (some (br, bn)) = .error e) ∨
      (gridBest f = none ∧ classify f none = .error e)) := by
  rw [solveCascade] at h
  rcases hn : newtonStage f oc.newton guesses with _ | r
  · rw [hn] at h
    dsimp only at h
    rcases hb : brentStage f oc.brent brackets with _ | r
    · rw [hb] at h
      dsimp only at h
      rcases hg : gridBest f with _ | ⟨br, bn⟩
      · rw [hg] at h
        exact ⟨rfl, rfl, Or.inr ⟨rfl, h⟩⟩
      · rw [hg] at h
        dsimp only at h
        by_cases hc : bn < 100
        · rw [if_pos hc] at h
          cases h
        · rw [if_neg hc] at h
          exact ⟨rfl, rfl, Or.inl ⟨br, bn, rfl, hc, h⟩⟩
    · rw [hb] at h
      dsimp only at h
      cases h
  · rw [hn] at h
    dsimp only at h
    cases h

lemma solveCascade_ne_validation (f : ℝ → ℝ) (oc : Oracles) :
    solveCascade f oc ≠ .error .lengthMismatch ∧
    solveCascade f oc ≠ .error .tooFewCashFlows := by
  constructor <;> intro h <;> obtain ⟨-, -, hcase⟩ := solveCascade_eq_error h <;>
    [skip; skip] <;>
    · rcases hcase with ⟨br, bn, -, -, hcl⟩ | ⟨-, hcl⟩ <;>
        rcases classify_cases f _ with hc | hc <;> rw [hcl] at hc <;> simp at hc

/-- On validated input, `calculate_xirr` is the cascade on `presentValue`. -/
lemma calculate_xirr_valid {cash_flows : List ℚ} {dates : List ℤ} (oc : Oracles)
    (hlen : cash_flows.length = dates.length) (h2 : 2 ≤ cash_flows.length) :
    calculate_xirr cash_flows dates oc =
      solveCascade (presentValue cash_flows dates) oc := by
  rw [calculate_xirr, if_neg (fun h => h hlen), if_neg (Nat.not_lt.mpr h2)]
  rfl

/-- The everywhere-raising oracle pair. -/
def ocNone : Oracles := ⟨fun _ _ => none, fun _ _ _ => none⟩

lemma newtonStage_ocNone (f : ℝ → ℝ) (gs : List ℝ) :
    newtonStage f ocNone.newton gs = none := by
  induction gs with
  | nil => rfl
  | cons g gs ih => rw [newtonStage]; exact ih

lemma brentStage_ocNone (f : ℝ → ℝ) (bs : List (ℝ × ℝ)) :
    brentStage f ocNone.brent bs = none := by
  induction bs with
  | nil => rfl
  | cons b rest ih =>
    obtain ⟨lo, hi⟩ := b
    rw [brentStage]
    split
    · exact ih
    · exact ih

/-! ### Claim C8 -/

/-- Claim C8: `calculate_xirr` rejects its input with a fatal error before any
numeric work exactly when the cash-flow list and date list have different
lengths or fewer than two entries are supplied; the rejection precedes
sorting and present-value evaluation (it does not depend on the solver
oracles at all), and a valid input can never produce these two errors. -/
theorem C8_input_validation (cash_flows : List ℚ) (dates : List ℤ)
    (oc oc2 : Oracles) :
    (cash_flows.length ≠ dates.length →
      calculate_xirr cash_flows dates oc = .error .lengthMismatch) ∧
    (cash_flows.length = dates.length → cash_flows.length < 2 →
      calculate_xirr cash_flows dates oc = .error .tooFewCashFlows) ∧
    ((cash_flows.length ≠ dates.length ∨ cash_flows.length < 2) →
      calculate_xirr cash_flows dates oc = calculate_xirr cash_flows dates oc2) ∧
    (cash_flows.length = dates.length → 2 ≤ cash_flows.length →
      calculate_xirr cash_flows dates oc ≠ .error .lengthMismatch ∧
      calculate_xirr cash_flows dates oc ≠ .error .tooFewCashFlows) := by
  refine ⟨?_, ?_, ?_, ?_⟩
  · intro h
    rw [calculate_xirr, if_pos h]
  · intro h1 h2
    rw [calculate_xirr, if_neg (fun h => h h1), if_pos h2]
  · intro h
    by_cases he : cash_flows.length ≠ dates.length
    · rw [calculate_xirr, if_pos he, calculate_xirr, if_pos he]
    · have hlt : cash_flows.length < 2 := by tauto
      rw [calculate_xirr, if_neg he, if_pos hlt, calculate_xirr, if_neg he, if_pos hlt]
  · intro h1 h2
    rw [calculate_xirr_valid oc h1 h2]
    exact solveCascade_ne_validation _ oc

/-- Witness for C8 at concrete malformed and well-formed inputs. -/
theorem C8_witness :
    calculate_xirr [1] [0, 1] ocNone = .error .lengthMismatch ∧
    calculate_xirr [1] [0] ocNone = .error .tooFewCashFlows ∧
    calculate_xirr [-1, 2] [0, 1] ocNone ≠ .error .lengthMismatch := by
  refine ⟨?_, ?_, ?_⟩
  · exact (C8_input_validation [1] [0, 1] ocNone ocNone).1 (by decide)
  · exact (C8_input_validation [1] [0] ocNone ocNone).2.1 rfl (by decide)
  · exact ((C8_input_validation [-1, 2] [0, 1] ocNone ocNone).2.2.2 rfl
      (by decide)).1

/-! ### Claim C9 -/

/-- Claim C9: the benchmark replay returns `None` whenever the price series is
missing or empty, and the aggregator's primary XIRR fields
(`xirr_percentage` / `xirr_error`) are identical whether or not benchmark
price data is available. -/
theorem C9_benchmark_optional :
    (∀ (outflows inflows : List (ℤ × ℚ)) (today : ℤ) (oc : Oracles),
      calculate_nifty50_portfolio outflows inflows none today oc = none) ∧
    (∀ (outflows inflows : List (ℤ × ℚ)) (today : ℤ) (oc : Oracles),
      calculate_nifty50_portfolio outflows inflows (some []) today oc = none) ∧
    (∀ (outflows inflows : List (ℤ × ℚ)) (current_value : ℚ) (today : ℤ)
      (nifty_data : Option (List PricePoint)) (oc : Oracles),
      (calculate_portfolio_stats outflows inflows current_value today
        nifty_data oc).xirr_percentage =
        (calculate_portfolio_stats outflows inflows current_value today
          none oc).xirr_percentage ∧
      (calculate_portfolio_stats outflows inflows current_value today
        nifty_data oc).xirr_error =
        (calculate_portfolio_stats outflows inflows current_value today
          none oc).xirr_error) := by
  refine ⟨fun _ _ _ _ => rfl, fun _ _ _ _ => rfl, fun _ _ _ _ _ _ => ⟨rfl, rfl⟩⟩

/-! ### Helper lemmas: price lookup and replay -/

lemma lookupPrice_mem {nifty_data : List PricePoint} {d : ℤ} {p : ℚ}
    (h : lookupPrice nifty_data d = some p) : ∃ q ∈ nifty_data, q.close = p := by
  unfold lookupPrice at h
  rcases hf : nifty_data.filter (fun q => q.date == d) with _ | ⟨q, rest⟩
  · rw [hf] at h
    dsimp only at h
    rcases hf2 : nifty_data.filter (fun q => decide (d < q.date)) with _ | ⟨q2, rest2⟩
    · rw [hf2] at h
      dsimp only at h
      rcases hl : nifty_data.getLast? with _ | q3
      · rw [hl] at h
        cases h
      · rw [hl] at h
        cases h
        obtain ⟨hne, heq⟩ :=
          List.mem_getLast?_eq_getLast (show q3 ∈ nifty_data.getLast? from hl)
        exact ⟨q3, by rw [heq]; exact List.getLast_mem hne, rfl⟩
    · rw [hf2] at h
      dsimp only at h
      cases h
      have hq2 : q2 ∈ nifty_data.filter (fun q => decide (d < q.date)) := by
        rw [hf2]
        exact List.mem_cons_self _ _
      exact ⟨q2, (List.mem_filter.mp hq2).1, rfl⟩
  · rw [hf] at h
    dsimp only at h
    cases h
    have hq : q ∈ nifty_data.filter (fun x => x.date == d) := by
      rw [hf]
      exact List.mem_cons_self _ _
    exact ⟨q, (List.mem_filter.mp hq).1, rfl⟩

lemma lookupPrice_exact {nifty_data : List PricePoint}
    (hs : nifty_data.Pairwise (fun a b => a.date < b.date)) {q : PricePoint}
    (hq : q ∈ nifty_data) {d : ℤ} (hd : q.date = d) :
    lookupPrice nifty_data d = some q.close := by
  induction nifty_data with
  | nil => cases hq
  | cons a rest ih =>
    rw [List.pairwise_cons] at hs
    rcases List.mem_cons.mp hq with rfl | hq2
    · unfold lookupPrice
      rw [List.filter_cons_of_pos (by simp [hd])]
    · have hlt : a.date < q.date := hs.1 q hq2
      have hane : (a.date == d) = false := by
        simp only [beq_eq_false_iff_ne, ne_eq]
        omega
      have ihq := ih hs.2 hq2
      unfold lookupPrice at ihq ⊢
      rw [List.filter_cons_of_neg (by simp [hane])]
      rcases hfr : rest.filter (fun x => x.date == d) with _ | ⟨x, xs⟩
      · have : q ∈ rest.filter (fun x => x.date == d) :=
          List.mem_filter.mpr ⟨hq2, by simp [hd]⟩
        rw [hfr] at this
        cases this
      · rw [hfr] at ihq ⊢
        exact ihq

lemma lookupPrice_future {nifty_data : List PricePoint}
    (hs : nifty_data.Pairwise (fun a b => a.date < b.date)) {d : ℤ}
    (hnoex : ∀ x ∈ nifty_data, x.date ≠ d)
    {q : PricePoint} (hq : q ∈ nifty_data) (hqd : d < q.date)
    (hmin : ∀ x ∈ nifty_data, d < x.date → q.date ≤ x.date) :
    lookupPrice nifty_data d = some q.close := by
  induction nifty_data with
  | nil => cases hq
  | cons a rest ih =>
    rw [List.pairwise_cons] at hs
    have hfe : (a :: rest).filter (fun x => x.date == d) = [] := by
      rw [List.filter_eq_nil_iff]
      intro x hx
      simp only [beq_iff_eq]
      exact hnoex x hx
    unfold lookupPrice
    rw [hfe]
    dsimp only
    by_cases had : d < a.date
    · have hqa : q = a := by
        rcases List.mem_cons.mp hq with rfl | hq2
        · rfl
        · have h1 := hs.1 q hq2
          have h2 := hmin a (List.mem_cons_self _ _) had
          omega
      subst hqa
      rw [List.filter_cons_of_pos (by simp [had])]
    · have hq2 : q ∈ rest := by
        rcases List.mem_cons.mp hq with rfl | h
        · exact absurd hqd had
        · exact h
      rw [List.filter_cons_of_neg (by simp [had])]
      have ihq := ih hs.2 (fun x hx => hnoex x (List.mem_cons_of_mem _ hx)) hq2
        (fun x hx hdx => hmin x (List.mem_cons_of_mem _ hx) hdx)
      unfold lookupPrice at ihq
      have hfe2 : rest.filter (fun x => x.date == d) = [] := by
        rw [List.filter_eq_nil_iff]
        intro x hx
        simp only [beq_iff_eq]
        exact hnoex x (List.mem_cons_of_mem _ hx)
      rw [hfe2] at ihq
      dsimp only at ihq
      rcases hfr : rest.filter (fun x => decide (d < x.date)) with _ | ⟨x, xs⟩
      · have : q ∈ rest.filter (fun x => decide (d < x.date)) :=
          List.mem_filter.mpr ⟨hq2, by simp [hqd]⟩
        rw [hfr] at this
        cases this
      · rw [hfr] at ihq ⊢
        exact ihq

lemma lookupPrice_last {nifty_data : List PricePoint} {d : ℤ}
    (hnoex : ∀ x ∈ nifty_data, x.date ≠ d)
    (hnofut : ∀ x ∈ nifty_data, ¬ d < x.date) :
    lookupPrice nifty_data d = nifty_data.getLast?.map PricePoint.close := by
  unfold lookupPrice
  rw [List.filter_eq_nil_iff.mpr (by intro x hx; simp only [beq_iff_eq]; exact hnoex x hx)]
  rw [List.filter_eq_nil_iff.mpr (by intro x hx; simpa using hnofut x hx)]

lemma replayStep_nonneg {nifty_data : List PricePoint}
    (hp : ∀ q ∈ nifty_data, 0 < q.close) {u : ℚ} (hu : 0 ≤ u) (t : Txn) :
    0 ≤ replayStep nifty_data u t := by
  unfold replayStep
  rcases hl : lookupPrice nifty_data t.date with _ | price
  · exact hu
  · dsimp only
    by_cases h0 : price = 0
    · rw [if_pos h0]
      exact hu
    · rw [if_neg h0]
      by_cases hw : t.isWithdrawal = false
      · rw [if_pos hw]
        have hprice : 0 < price := by
          obtain ⟨q, hq, rfl⟩ := lookupPrice_mem hl
          exact hp q hq
        have : 0 ≤ |t.amount| / price := div_nonneg (abs_nonneg _) hprice.le
        linarith
      · rw [if_neg hw]
        by_cases hu0 : 0 < u
        · rw [if_pos hu0]
          by_cases hv : 0 < u * price
          · rw [if_pos hv]
            by_cases hr : u - u * (|t.amount| / (u * price)) < 0
            · rw [if_pos hr]
            · rw [if_neg hr]
              linarith
          · rw [if_neg hv]
            exact hu
        · rw [if_neg hu0]
          exact hu

/-! ### Claim C3 -/

/-- Claim C3: during benchmark replay, a withdrawal of amount `w` processed at
unit balance `u` and resolved price giving positive portfolio value
`v = u * price` removes exactly the pro-rata fraction `u * (w / v)` of the
units (clamped to an empty balance when the subtraction would go negative,
e.g. 100 units at price 10 with a withdrawal of 500 leave exactly 50 units),
and the running unit balance stays non-negative after every transaction. -/
theorem C3_proportional_redemption :
    (∀ (nifty_data : List PricePoint) (u : ℚ) (t : Txn) (price : ℚ),
      t.isWithdrawal = true →
      lookupPrice nifty_data t.date = some price →
      0 < u → 0 < u * price →
      (0 ≤ u - u * (|t.amount| / (u * price)) →
        replayStep nifty_data u t = u - u * (|t.amount| / (u * price))) ∧
      (u - u * (|t.amount| / (u * price)) < 0 →
        replayStep nifty_data u t = 0)) ∧
    replayStep [⟨0, 10⟩] 100 ⟨0, 500, true⟩ = 50 ∧
    (∀ (nifty_data : List PricePoint), (∀ q ∈ nifty_data, 0 < q.close) →
      ∀ (txns : List Txn), 0 ≤ replayUnits nifty_data txns) := by
  refine ⟨?_, ?_, ?_⟩
  · intro nifty_data u t price ht hl hu hv
    have h0 : price ≠ 0 := by
      intro h
      rw [h, mul_zero] at hv
      exact lt_irrefl _ hv
    have hbranch : replayStep nifty_data u t =
        if u - u * (|t.amount| / (u * price)) < 0 then 0
        else u - u * (|t.amount| / (u * price)) := by
      unfold replayStep
      rw [hl]
      dsimp only
      rw [if_neg h0, if_neg (by rw [ht]; exact fun h => Bool.noConfusion h),
        if_pos hu, if_pos hv]
    constructor
    · intro hge
      rw [hbranch, if_neg (not_lt.mpr hge)]
    · intro hlt
      rw [hbranch, if_pos hlt]
  · have hlp : lookupPrice [⟨0, 10⟩] 0 = some 10 := rfl
    unfold replayStep
    rw [hlp]
    norm_num
  · intro nifty_data hp txns
    unfold replayUnits
    have h : ∀ (u : ℚ), 0 ≤ u → 0 ≤ txns.foldl (replayStep nifty_data) u := by
      induction txns with
      | nil => intro u hu; exact hu
      | cons t rest ih =>
        intro u hu
        rw [List.foldl_cons]
        exact ih _ (replayStep_nonneg hp hu t)
    exact h 0 le_rfl

/-- Witness for C3: the spec's concrete example, 100 units at price 10 with a
withdrawal of 500 leaving exactly 50 units, obtained through the theorem. -/
theorem C3_witness :
    replayStep [⟨0, 10⟩] 100 ⟨0, 500, true⟩ =
      (100 : ℚ) - 100 * (|(500 : ℚ)| / (100 * 10)) :=
  ((C3_proportional_redemption.1 [⟨0, 10⟩] 100 ⟨0, 500, true⟩ 10 rfl (by decide)
    (by norm_num) (by norm_num)).1 (by norm_num)).trans (by norm_num)

/-! ### Claim C4 -/

/-- Claim C4: for a price series with strictly increasing dates, the resolved
price for a transaction date is: the entry at the exact date when one exists;
otherwise the entry at the earliest date strictly after the transaction date;
otherwise (no later date) the last entry of the series. -/
theorem C4_price_lookup (nifty_data : List PricePoint)
    (hs : nifty_data.Pairwise (fun a b => a.date < b.date)) (d : ℤ) :
    (∀ q ∈ nifty_data, q.date = d → lookupPrice nifty_data d = some q.close) ∧
    ((∀ x ∈ nifty_data, x.date ≠ d) →
      ∀ q ∈ nifty_data, d < q.date →
      (∀ x ∈ nifty_data, d < x.date → q.date ≤ x.date) →
      lookupPrice nifty_data d = some q.close) ∧
    ((∀ x ∈ nifty_data, x.date ≠ d) → (∀ x ∈ nifty_data, ¬ d < x.date) →
      lookupPrice nifty_data d = nifty_data.getLast?.map PricePoint.close) :=
  ⟨fun q hq hd => lookupPrice_exact hs hq hd,
   fun hnoex q hq hqd hmin => lookupPrice_future hs hnoex hq hqd hmin,
   fun hnoex hnofut => lookupPrice_last hnoex hnofut⟩

/-- Witness for C4: on the series with dates 0 and 2, date 1 (a non-trading
day) resolves to the later date 2, not the earlier date 0; date 0 resolves
exactly; date 3 falls back to the last entry. -/
theorem C4_witness :
    lookupPrice [⟨0, 5⟩, ⟨2, 7⟩] 1 = some 7 ∧
    lookupPrice [⟨0, 5⟩, ⟨2, 7⟩] 0 = some 5 ∧
    lookupPrice [⟨0, 5⟩, ⟨2, 7⟩] 3 = some 7 := by
  have hs : ([⟨0, 5⟩, ⟨2, 7⟩] : List PricePoint).Pairwise
      (fun a b => a.date < b.date) := by decide
  refine ⟨?_, ?_, ?_⟩
  · exact (C4_price_lookup _ hs 1).2.1 (by decide) ⟨2, 7⟩ (by decide) (by decide)
      (by decide)
  · exact (C4_price_lookup _ hs 0).1 ⟨0, 5⟩ (by decide) rfl
  · exact ((C4_price_lookup _ hs 3).2.2 (by decide) (by decide)).trans (by decide)

/-! ### Claim C7 -/

/-- Claim C7: `calculate_xirr` is a function of the multiset of
(date, amount) pairs: two inputs carrying the same pairs in any order produce
the exact same result (same returned rate, or the same classified error) for
the same solver behavior, because `sorted(zip(dates, cash_flows))` with the
total lexicographic tuple order maps every ordering, ties among same-date
entries included, to one canonical sorted list. -/
theorem C7_order_invariance (cfs1 cfs2 : List ℚ) (dates1 dates2 : List ℤ)
    (oc : Oracles) (h1 : cfs1.length = dates1.length)
    (h2 : cfs2.length = dates2.length)
    (hp : (dates1.zip cfs1).Perm (dates2.zip cfs2)) :
    calculate_xirr cfs1 dates1 oc = calculate_xirr cfs2 dates2 oc := by
  have hzlen : (dates1.zip cfs1).length = (dates2.zip cfs2).length := hp.length_eq
  rw [List.length_zip, List.length_zip, ← h1, ← h2, min_self, min_self] at hzlen
  have hsorted : sortedFlows cfs1 dates1 = sortedFlows cfs2 dates2 := by
    haveI : IsAntisymm (ℤ × ℚ) (fun a b => dateAmountLE a b = true) :=
      ⟨dateAmountLE_antisymm⟩
    exact List.eq_of_perm_of_sorted
      ((List.mergeSort_perm _ _).trans (hp.trans (List.mergeSort_perm _ _).symm))
      (List.sorted_mergeSort dateAmountLE_trans dateAmountLE_total _)
      (List.sorted_mergeSort dateAmountLE_trans dateAmountLE_total _)
  rw [calculate_xirr, calculate_xirr,
    if_neg (show ¬cfs1.length ≠ dates1.length from fun h => h h1),
    if_neg (show ¬cfs2.length ≠ dates2.length from fun h => h h2), hzlen]
  by_cases hlt : cfs2.length < 2
  · rw [if_pos hlt, if_pos hlt]
  · rw [if_neg hlt, if_neg hlt, hsorted]

/-- Witness for C7: reversing a two-entry unsorted series changes nothing. -/
theorem C7_witness :
    calculate_xirr [2, -1] [3, 5] ocNone = calculate_xirr [-1, 2] [5, 3] ocNone :=
  C7_order_invariance [2, -1] [-1, 2] [3, 5] [5, 3] ocNone rfl rfl (by decide)

/-- Folding from an empty accumulator over a non-empty grid always lands on
some point. -/
lemma gridFold_none_ne (f : ℝ → ℝ) {pts : List ℚ} (hne : pts ≠ []) :
    ∃ b bn, gridFold f pts none = some (b, bn) := by
  cases pts with
  | nil => exact absurd rfl hne
  | cons p rest =>
    have h1 : gridFold f (p :: rest) none = gridFold f rest (some (p, |f (p : ℝ)|)) := rfl
    rw [h1]
    obtain ⟨b2, bn2, h2, -⟩ := gridFold_some rest p (|f (p : ℝ)|)
    exact ⟨b2, bn2, h2⟩

lemma coarseGrid_ne_nil : coarseGrid ≠ [] := linspaceQ_ne_nil (by norm_num)

lemma gridBest_ne_none (f : ℝ → ℝ) : gridBest f ≠ none := by
  obtain ⟨b, bn, hc⟩ := gridFold_none_ne f coarseGrid_ne_nil
  unfold gridBest
  rw [hc]
  dsimp only
  by_cases hlt : bn < 100
  · rw [if_pos hlt]
    obtain ⟨b2, bn2, h2, -⟩ := gridFold_some (fineGrid b) b bn
    rw [h2]
    exact fun h => Option.noConfusion h
  · rw [if_neg hlt]
    exact fun h => Option.noConfusion h

/-- If the final best value did not clear the 100 threshold, no refinement
pass happened: the recorded best rate is a coarse grid point. -/
lemma gridBest_not_refined {f : ℝ → ℝ} {br : ℚ} {bn : ℝ}
    (h : gridBest f = some (br, bn)) (hge : ¬ bn < 100) :
    br ∈ coarseGrid ∧ bn = |f (br : ℝ)| := by
  unfold gridBest at h
  rcases hc : gridFold f coarseGrid none with _ | ⟨b0, bn0⟩
  · rw [hc] at h
    cases h
  · rw [hc] at h
    dsimp only at h
    by_cases hlt : bn0 < 100
    · rw [if_pos hlt] at h
      obtain ⟨b2, bn2, heq, hle⟩ := gridFold_some (fineGrid b0) b0 bn0
      rw [heq] at h
      cases h
      exact absurd (lt_of_le_of_lt hle hlt) hge
    · rw [if_neg hlt] at h
      cases h
      rcases gridFold_inv coarseGrid none br bn hc with h0 | ⟨hm, hv⟩
      · cases h0
      · exact ⟨hm, hv⟩

lemma fineGrid_mem_bounds {b : ℚ} (hb1 : -0.99 ≤ b) (hb2 : b ≤ 5) {p : ℚ}
    (hp : p ∈ fineGrid b) : -0.99 ≤ p ∧ p ≤ 5 := by
  unfold fineGrid at hp
  have hlohi : max (-0.99) (b - 0.5) ≤ min 5 (b + 0.5) :=
    max_le (le_min (by norm_num) (by linarith)) (le_min (by linarith) (by linarith))
  obtain ⟨h1, h2⟩ := linspaceQ_mem_bounds hlohi (by norm_num) hp
  exact ⟨(le_max_left _ _).trans h1, h2.trans (min_le_left _ _)⟩

/-- The rate recorded by the full grid search is a point of `[-0.99, 5]` and
the recorded value is the objective there. -/
lemma gridBest_mem {f : ℝ → ℝ} {br : ℚ} {bn : ℝ} (h : gridBest f = some (br, bn)) :
    (-0.99 ≤ br ∧ br ≤ 5) ∧ bn = |f (br : ℝ)| := by
  unfold gridBest at h
  rcases hc : gridFold f coarseGrid none with _ | ⟨b0, bn0⟩
  · rw [hc] at h
    cases h
  · rw [hc] at h
    dsimp only at h
    rcases gridFold_inv coarseGrid none b0 bn0 hc with h0 | ⟨hm0, hv0⟩
    · cases h0
    have hb0 : -0.99 ≤ b0 ∧ b0 ≤ 5 :=
      linspaceQ_mem_bounds (by norm_num) (by norm_num) hm0
    by_cases hlt : bn0 < 100
    · rw [if_pos hlt] at h
      rcases gridFold_inv (fineGrid b0) (some (b0, bn0)) br bn h with heq | ⟨hm, hv⟩
      · cases heq
        exact ⟨hb0, hv0⟩
      · exact ⟨fineGrid_mem_bounds hb0.1 hb0.2 hm, hv⟩
    · rw [if_neg hlt] at h
      cases h
      exact ⟨hb0, hv0⟩

/-- Anatomy of a cascade success. -/
lemma solveCascade_eq_ok {f : ℝ → ℝ} {oc : Oracles} {r : ℝ}
    (h : solveCascade f oc = .ok r) :
    newtonStage f oc.newton guesses = some r ∨
    (newtonStage f oc.newton guesses = none ∧
      brentStage f oc.brent brackets = some r) ∨
    (newtonStage f oc.newton guesses = none ∧
      brentStage f oc.brent brackets = none ∧
      ∃ br bn, gridBest f = some (br, bn) ∧ bn < 100 ∧ r = (br : ℝ)) := by
  rw [solveCascade] at h
  rcases hn : newtonStage f oc.newton guesses with _ | r0
  · rw [hn] at h
    dsimp only at h
    rcases hb : brentStage f oc.brent brackets with _ | r0
    · rw [hb] at h
      dsimp only at h
      rcases hg : gridBest f with _ | ⟨br, bn⟩
      · rw [hg] at h
        rcases classify_cases f none with hc | hc <;> rw [hc] at h <;> cases h
      · rw [hg] at h
        dsimp only at h
        by_cases hlt : bn < 100
        · rw [if_pos hlt] at h
          cases h
          exact Or.inr (Or.inr ⟨rfl, rfl, br, bn, rfl, hlt, rfl⟩)
        · rw [if_neg hlt] at h
          rcases classify_cases f (some (br, bn)) with hc | hc <;> rw [hc] at h <;>
            cases h
    · rw [hb] at h
      dsimp only at h
      cases h
      exact Or.inr (Or.inl ⟨rfl, rfl⟩)
  · rw [hn] at h
    dsimp only at h
    cases h
    exact Or.inl rfl

open Classical in
/-- With the recorded best rate known non-zero, the classification condition
is exactly the three-way 1000 test of the claim. -/
lemma classify_extreme_iff {f : ℝ → ℝ} {br : ℚ} {bn : ℝ} (hbr : br ≠ 0) :
    (classify f (some (br, bn)) = .error .extremeLoss ↔
      (1000 < |f (-0.99)| ∧ 1000 < |f 5| ∧ 1000 < bn)) := by
  unfold classify
  by_cases hcond : 1000 < |f (-0.99)| ∧ 1000 < |f 5| ∧
      (∀ br2 bn2, (some (br, bn) : Option (ℚ × ℝ)) = some (br2, bn2) → br2 ≠ 0 →
        1000 < bn2)
  · rw [if_pos hcond]
    simp only [true_iff]
    exact ⟨hcond.1, hcond.2.1, hcond.2.2 br bn rfl hbr⟩
  · rw [if_neg hcond]
    constructor
    · intro h
      cases h
    · rintro ⟨h1, h2, h3⟩
      exact absurd ⟨h1, h2, by rintro br2 bn2 heq -; cases heq; exact h3⟩ hcond

/-! ### Helper lemmas: clipping and discounting -/

lemma clip_bounds (r : ℝ) : -0.9999 ≤ clip r ∧ clip r ≤ 100 := by
  unfold clip
  exact ⟨le_min (le_max_right _ _) (by norm_num), min_le_right _ _⟩

lemma clip_eq_self {r : ℝ} (h1 : -0.9999 ≤ r) (h2 : r ≤ 100) : clip r = r := by
  unfold clip
  rw [max_eq_left h1, min_eq_left h2]

/-- If the clipped rate lands strictly inside the clipping interval, the rate
was not clipped at all. -/
lemma eq_clip_of_interior {r : ℝ} (h1 : -0.9999 < clip r) (h2 : clip r < 100) :
    clip r = r := by
  unfold clip at *
  rcases le_or_lt r (-0.9999) with h | h
  · rw [max_eq_right h, min_eq_left (by norm_num)] at h1
    exact absurd h1 (lt_irrefl _)
  · rw [max_eq_left h.le] at h2 ⊢
    rcases le_or_lt 100 r with h3 | h3
    · rw [min_eq_right h3] at h2
      exact absurd h2 (lt_irrefl _)
    · exact min_eq_left h3.le

lemma dateAmountLE_of_lt {a b : ℤ × ℚ} (h : a.1 < b.1) : dateAmountLE a b = true := by
  simp [dateAmountLE, h]

/-- `c ≤ x ^ T` for a fractional exponent `T ∈ [0, 1]` and `c ≤ x`, `c ≤ 1`. -/
lemma rpow_frac_ge {x c T : ℝ} (hc0 : 0 < c) (hc1 : c ≤ 1) (hx : c ≤ x)
    (hT0 : 0 ≤ T) (hT1 : T ≤ 1) : c ≤ x ^ T := by
  calc c = c ^ (1 : ℝ) := (Real.rpow_one c).symm
  _ ≤ c ^ T := Real.rpow_le_rpow_of_exponent_ge hc0 hc1 hT1
  _ ≤ x ^ T := Real.rpow_le_rpow hc0.le hx hT0

/-- Evaluation of `presentValue` on a sorted two-flow series dated 0 and 365:
the exponent is 365 / 365.25 = 1460/1461 years. -/
lemma pvB_eval (m b : ℚ) (r : ℝ) :
    presentValue [m, b] [0, 365] r =
      (m : ℝ) + (b : ℝ) / (1 + clip r) ^ ((((1460 : ℚ) / 1461 : ℚ)) : ℝ) := by
  unfold presentValue
  have hzip : ([0, 365] : List ℤ).zip [m, b] = [(0, m), (365, b)] := rfl
  have hpw : ([(0, m), ((365 : ℤ), b)] : List (ℤ × ℚ)).Pairwise
      (fun a b => dateAmountLE a b = true) := by
    refine List.pairwise_cons.mpr ⟨?_, List.pairwise_singleton _ _⟩
    intro x hx
    rw [List.mem_singleton] at hx
    subst hx
    exact dateAmountLE_of_lt (by norm_num)
  have hsorted : sortedFlows [m, b] [0, 365] = [(0, m), (365, b)] := by
    rw [sortedFlows_of_sorted [m, b] [0, 365] (by rw [hzip]; exact hpw), hzip]
  rw [hsorted]
  simp only [yearsFrom, List.map_cons, List.map_nil, xnpv, List.sum_cons, List.sum_nil]
  norm_num [Real.rpow_zero]

/-- Evaluation of `presentValue` on a sorted two-flow series dated 0 and 1461:
the exponent is exactly 4 years. -/
lemma pv4_eval (m b : ℚ) (r : ℝ) :
    presentValue [m, b] [0, 1461] r =
      (m : ℝ) + (b : ℝ) / (1 + clip r) ^ (4 : ℕ) := by
  unfold presentValue
  have hzip : ([0, 1461] : List ℤ).zip [m, b] = [(0, m), (1461, b)] := rfl
  have hpw : ([(0, m), ((1461 : ℤ), b)] : List (ℤ × ℚ)).Pairwise
      (fun a b => dateAmountLE a b = true) := by
    refine List.pairwise_cons.mpr ⟨?_, List.pairwise_singleton _ _⟩
    intro x hx
    rw [List.mem_singleton] at hx
    subst hx
    exact dateAmountLE_of_lt (by norm_num)
  have hsorted : sortedFlows [m, b] [0, 1461] = [(0, m), (1461, b)] := by
    rw [sortedFlows_of_sorted [m, b] [0, 1461] (by rw [hzip]; exact hpw), hzip]
  rw [hsorted]
  simp only [yearsFrom, List.map_cons, List.map_nil, xnpv, List.sum_cons, List.sum_nil]
  rw [show ((((1461 : ℤ) - 0 : ℤ) : ℚ) / (1461 / 4) : ℚ) = ((4 : ℕ) : ℚ) by norm_num]
  rw [show ((((4 : ℕ) : ℚ)) : ℝ) = ((4 : ℕ) : ℝ) by norm_num]
  rw [Real.rpow_natCast]
  norm_num [Real.rpow_zero]

/-! ### The extreme-loss series `[(-1000000, day 0), (+1, day 365)]` -/

/-- Uniform bound: the present value of the extreme-loss series is at most
-990000 at every rate (the discount factor is at most 10^4 on the whole
clipping range). -/
lemma pvB_bound (r : ℝ) :
    presentValue [-1000000, 1] [0, 365] r ≤ -990000 := by
  rw [pvB_eval]
  have hx : (0.0001 : ℝ) ≤ 1 + clip r := by
    have := (clip_bounds r).1
    linarith
  have hcast : ((((1460 : ℚ) / 1461 : ℚ)) : ℝ) = (1460 : ℝ) / 1461 := by
    norm_num
  rw [hcast]
  have h1 : (0.0001 : ℝ) ≤ (1 + clip r) ^ ((1460 : ℝ) / 1461) :=
    rpow_frac_ge (by norm_num) (by norm_num) hx (by norm_num) (by norm_num)
  have h2 : (1 : ℝ) / (1 + clip r) ^ ((1460 : ℝ) / 1461) ≤ 10000 := by
    rw [div_le_iff (lt_of_lt_of_le (by norm_num) h1)]
    nlinarith
  push_cast
  linarith

lemma pvB_abs_ge (r : ℝ) :
    (990000 : ℝ) ≤ |presentValue [-1000000, 1] [0, 365] r| := by
  have h := pvB_bound r
  rw [abs_of_nonpos (by linarith)]
  linarith

/-- The whole cascade classifies the extreme-loss series as extreme loss, for
every solver behavior. -/
lemma seriesB_result (oc : Oracles) :
    calculate_xirr [-1000000, 1] [0, 365] oc = .error .extremeLoss := by
  rw [calculate_xirr_valid oc rfl (by norm_num)]
  have hn : newtonStage (presentValue [-1000000, 1] [0, 365]) oc.newton guesses =
      none := by
    apply newtonStage_eq_none
    rintro r ⟨habs, -, -⟩
    have := pvB_abs_ge r
    linarith
  have hbr : brentStage (presentValue [-1000000, 1] [0, 365]) oc.brent brackets =
      none := by
    apply brentStage_eq_none
    intro lo hi _
    have h1 := pvB_bound lo
    have h2 := pvB_bound hi
    intro hlt
    have hpos : 0 < presentValue [-1000000, 1] [0, 365] lo *
        presentValue [-1000000, 1] [0, 365] hi :=
      mul_pos_of_neg_of_neg (by linarith) (by linarith)
    linarith
  obtain ⟨b0, bn0, hc⟩ :=
    gridFold_none_ne (presentValue [-1000000, 1] [0, 365]) coarseGrid_ne_nil
  have hbig : ∀ p ∈ coarseGrid,
      (1000 : ℝ) < |presentValue [-1000000, 1] [0, 365] (p : ℝ)| := by
    intro p _
    have := pvB_abs_ge ((p : ℚ) : ℝ)
    linarith
  have hbn0 : (1000 : ℝ) < bn0 :=
    gridFold_lb coarseGrid none hbig (by rintro b bn h; cases h) b0 bn0 hc
  have hge : ¬ bn0 < 100 := by linarith
  have hg : gridBest (presentValue [-1000000, 1] [0, 365]) = some (b0, bn0) := by
    unfold gridBest
    rw [hc]
    dsimp only
    rw [if_neg hge]
  rw [solveCascade_classify hn hbr hg hge]
  unfold classify
  rw [if_pos]
  refine ⟨by have := pvB_abs_ge (-0.99); linarith,
    by have := pvB_abs_ge 5; linarith, ?_⟩
  rintro br bn heq -
  cases heq
  exact hbn0

/-! ### Claim C2 -/

/-- Claim C2: when the whole cascade fails, `calculate_xirr` classifies the
failure as extreme loss exactly when `|presentValue(-0.99)|`,
`|presentValue(5)|` and the best grid-search value all exceed 1000 (otherwise
generic non-convergence), and the series `[(-1000000, day 0), (+1, day 365)]`
is classified as extreme loss, for every solver behavior. -/
theorem C2_extreme_loss (cash_flows : List ℚ) (dates : List ℤ) (oc : Oracles)
    (herr : calculate_xirr cash_flows dates oc = .error .extremeLoss ∨
      calculate_xirr cash_flows dates oc = .error .noConvergence) :
    (calculate_xirr cash_flows dates oc = .error .extremeLoss ↔
      (1000 < |presentValue cash_flows dates (-0.99)| ∧
        1000 < |presentValue cash_flows dates 5| ∧
        ∀ br bn, gridBest (presentValue cash_flows dates) = some (br, bn) →
          1000 < bn)) ∧
    calculate_xirr [-1000000, 1] [0, 365] oc = .error .extremeLoss := by
  refine ⟨?_, seriesB_result oc⟩
  have hval : cash_flows.length = dates.length ∧ 2 ≤ cash_flows.length := by
    by_cases hlen : cash_flows.length ≠ dates.length
    · rw [calculate_xirr, if_pos hlen] at herr
      rcases herr with h | h <;> simp at h
    · push_neg at hlen
      by_cases h2 : cash_flows.length < 2
      · rw [calculate_xirr, if_neg (fun hh => hh hlen), if_pos h2] at herr
        rcases herr with h | h <;> simp at h
      · exact ⟨hlen, Nat.not_lt.mp h2⟩
  rw [calculate_xirr_valid oc hval.1 hval.2] at herr ⊢
  have herr2 : ∃ e, solveCascade (presentValue cash_flows dates) oc = .error e := by
    rcases herr with h | h
    · exact ⟨_, h⟩
    · exact ⟨_, h⟩
  obtain ⟨e, he⟩ := herr2
  obtain ⟨hn, hbr, hcase⟩ := solveCascade_eq_error he
  rcases hcase with ⟨br, bn, hg, hge, -⟩ | ⟨hg, -⟩
  · have hres : solveCascade (presentValue cash_flows dates) oc =
        classify (presentValue cash_flows dates) (some (br, bn)) :=
      solveCascade_classify hn hbr hg hge
    obtain ⟨hmem, -⟩ := gridBest_not_refined hg hge
    have hbr0 : br ≠ 0 := coarseGrid_ne_zero hmem
    rw [hres, classify_extreme_iff hbr0]
    constructor
    · rintro ⟨h1, h2, h3⟩
      refine ⟨h1, h2, ?_⟩
      intro br2 bn2 heq
      rw [hg] at heq
      cases heq
      exact h3
    · rintro ⟨h1, h2, h3⟩
      exact ⟨h1, h2, h3 br bn hg⟩
  · exact absurd hg (gridBest_ne_none _)

/-- Witness for C2: every hypothesis discharged at the concrete extreme-loss
series with the everywhere-raising oracle. -/
theorem C2_witness :
    calculate_xirr [-1000000, 1] [0, 365] ocNone = .error .extremeLoss ∧
    (calculate_xirr [-1000000, 1] [0, 365] ocNone = .error .extremeLoss ↔
      (1000 < |presentValue [-1000000, 1] [0, 365] (-0.99)| ∧
        1000 < |presentValue [-1000000, 1] [0, 365] 5| ∧
        ∀ br bn, gridBest (presentValue [-1000000, 1] [0, 365]) = some (br, bn) →
          1000 < bn)) :=
  ⟨(C2_extreme_loss [-1000000, 1] [0, 365] ocNone
      (Or.inl (seriesB_result ocNone))).2,
   (C2_extreme_loss [-1000000, 1] [0, 365] ocNone
      (Or.inl (seriesB_result ocNone))).1⟩

/-! ### The grid-fallback family: cash flows `[-2, -1, v]` at days
`[0, 1461, 2922]` (exactly 0, 4 and 8 years).

For tiny terminal values `v` the present value stays below -1 on the whole
Newton guard range and never changes sign at the Brent sentinels, so the
cascade falls through to the grid search. -/

/-- Cash flows `[-2, -1, v]`: two investments and a terminal valuation `v`. -/
def cfsA (v : ℚ) : List ℚ := [-2, -1, v]

/-- Days `[0, 1461, 2922]`: 1461 days = exactly 4 years of 365.25 days. -/
def datesA : List ℤ := [0, 1461, 2922]

lemma pvA_eval (v : ℚ) (r : ℝ) :
    presentValue (cfsA v) datesA r =
      -2 - 1 / (1 + clip r) ^ (4 : ℕ) + (v : ℝ) / (1 + clip r) ^ (8 : ℕ) := by
  unfold presentValue cfsA datesA
  have hzip : ([0, 1461, 2922] : List ℤ).zip [-2, -1, v] =
      [(0, -2), (1461, -1), (2922, v)] := rfl
  have hpw : ([(0, -2), ((1461 : ℤ), -1), ((2922 : ℤ), v)] : List (ℤ × ℚ)).Pairwise
      (fun a b => dateAmountLE a b = true) := by
    refine List.pairwise_cons.mpr ⟨?_, List.pairwise_cons.mpr
      ⟨?_, List.pairwise_singleton _ _⟩⟩
    · intro x hx
      rcases List.mem_cons.mp hx with rfl | hx2
      · exact dateAmountLE_of_lt (by norm_num)
      · rw [List.mem_singleton] at hx2
        subst hx2
        exact dateAmountLE_of_lt (by norm_num)
    · intro x hx
      rw [List.mem_singleton] at hx
      subst hx
      exact dateAmountLE_of_lt (by norm_num)
  have hsorted : sortedFlows [-2, -1, v] [0, 1461, 2922] =
      [(0, -2), (1461, -1), (2922, v)] := by
    rw [sortedFlows_of_sorted [-2, -1, v] [0, 1461, 2922] (by rw [hzip]; exact hpw),
      hzip]
  rw [hsorted]
  simp only [yearsFrom, List.map_cons, List.map_nil, xnpv, List.sum_cons, List.sum_nil]
  rw [show ((((1461 : ℤ) - 0 : ℤ) : ℚ) / (1461 / 4) : ℚ) = ((4 : ℕ) : ℚ) by norm_num]
  rw [show ((((2922 : ℤ) - 0 : ℤ) : ℚ) / (1461 / 4) : ℚ) = ((8 : ℕ) : ℚ) by norm_num]
  rw [show ((((4 : ℕ) : ℚ)) : ℝ) = ((4 : ℕ) : ℝ) by norm_num,
    show ((((8 : ℕ) : ℚ)) : ℝ) = ((8 : ℕ) : ℝ) by norm_num,
    Real.rpow_natCast, Real.rpow_natCast]
  norm_num [Real.rpow_zero]
  ring

/-- On the Newton guard range `[-0.99, 10]` the present value stays at or
below -2 for any terminal value up to 10^-10. -/
lemma pvA_le_neg_two {v : ℚ} (hv0 : 0 ≤ v) (hv : (v : ℝ) ≤ 1e-10) {r : ℝ}
    (hlo : -0.99 ≤ r) (hhi : r ≤ 10) :
    presentValue (cfsA v) datesA r ≤ -2 := by
  rw [pvA_eval, clip_eq_self (by linarith) (by linarith)]
  obtain ⟨x, hxdef⟩ : ∃ x, x = 1 + r := ⟨_, rfl⟩
  rw [← hxdef]
  have hx1 : (0.01 : ℝ) ≤ x := by rw [hxdef]; linarith
  have hx2 : (1e-4 : ℝ) ≤ x ^ 2 := by nlinarith [sq_nonneg (x - 1e-2)]
  have hx4 : (1e-8 : ℝ) ≤ x ^ (4 : ℕ) := by nlinarith [hx2, sq_nonneg (x ^ 2 - 1e-4)]
  have hx4pos : (0 : ℝ) < x ^ (4 : ℕ) := pow_pos (by linarith) 4
  have hv0R : (0 : ℝ) ≤ (v : ℝ) := by exact_mod_cast hv0
  have key : (v : ℝ) / x ^ (8 : ℕ) ≤ 1 / x ^ (4 : ℕ) := by
    rw [show x ^ (8 : ℕ) = (x ^ (4 : ℕ)) ^ 2 by ring,
      div_le_div_iff (pow_pos hx4pos 2) hx4pos]
    have hstep : (v : ℝ) * x ^ (4 : ℕ) ≤ x ^ (4 : ℕ) * x ^ (4 : ℕ) :=
      mul_le_mul_of_nonneg_right (by linarith) hx4pos.le
    nlinarith [hstep]
  linarith [key]

/-- On the whole Brent and grid range `[-0.999, 10]` the present value is
negative for terminal values up to 10^-13. -/
lemma pvA_neg_small {v : ℚ} (hv0 : 0 ≤ v) (hv : (v : ℝ) ≤ 1e-13) {r : ℝ}
    (hlo : -0.999 ≤ r) (hhi : r ≤ 10) :
    presentValue (cfsA v) datesA r < 0 := by
  rw [pvA_eval, clip_eq_self (by linarith) (by linarith)]
  obtain ⟨x, hxdef⟩ : ∃ x, x = 1 + r := ⟨_, rfl⟩
  rw [← hxdef]
  have hx1 : (0.001 : ℝ) ≤ x := by rw [hxdef]; linarith
  have hx2 : (1e-6 : ℝ) ≤ x ^ 2 := by nlinarith [sq_nonneg (x - 1e-3)]
  have hx4 : (1e-12 : ℝ) ≤ x ^ (4 : ℕ) := by nlinarith [hx2, sq_nonneg (x ^ 2 - 1e-6)]
  have hx4pos : (0 : ℝ) < x ^ (4 : ℕ) := pow_pos (by linarith) 4
  have hv0R : (0 : ℝ) ≤ (v : ℝ) := by exact_mod_cast hv0
  have key : (v : ℝ) / x ^ (8 : ℕ) ≤ 1 / x ^ (4 : ℕ) := by
    rw [show x ^ (8 : ℕ) = (x ^ (4 : ℕ)) ^ 2 by ring,
      div_le_div_iff (pow_pos hx4pos 2) hx4pos]
    have hstep : (v : ℝ) * x ^ (4 : ℕ) ≤ x ^ (4 : ℕ) * x ^ (4 : ℕ) :=
      mul_le_mul_of_nonneg_right (by linarith) hx4pos.le
    nlinarith [hstep]
  have hpos : (0 : ℝ) < 1 / x ^ (4 : ℕ) := one_div_pos.mpr hx4pos
  linarith

/-- `|presentValue|` strictly decreases in the rate on `[-0.99, 5]` for
terminal values up to 10^-13. -/
lemma pvA_abs_anti {v : ℚ} (hv0 : 0 ≤ v) (hv : (v : ℝ) ≤ 1e-13) {a b : ℝ}
    (ha : -0.99 ≤ a) (hab : a < b) (hb : b ≤ 5) :
    |presentValue (cfsA v) datesA b| < |presentValue (cfsA v) datesA a| := by
  have hna : presentValue (cfsA v) datesA a < 0 :=
    pvA_neg_small hv0 hv (by linarith) (by linarith)
  have hnb : presentValue (cfsA v) datesA b < 0 :=
    pvA_neg_small hv0 hv (by linarith) (by linarith)
  rw [abs_of_neg hna, abs_of_neg hnb, pvA_eval, pvA_eval,
    clip_eq_self (by linarith) (by linarith), clip_eq_self (by linarith) (by linarith)]
  obtain ⟨xa, hxa⟩ : ∃ x, x = 1 + a := ⟨_, rfl⟩
  obtain ⟨xb, hxb⟩ : ∃ x, x = 1 + b := ⟨_, rfl⟩
  rw [← hxa, ← hxb]
  have hxa1 : (0.01 : ℝ) ≤ xa := by rw [hxa]; linarith
  have hxb0 : (0 : ℝ) < xb := by rw [hxb]; linarith
  have hxab : xa < xb := by rw [hxa, hxb]; linarith
  have hxa2 : (1e-4 : ℝ) ≤ xa ^ 2 := by nlinarith [sq_nonneg (xa - 1e-2)]
  have hxa4 : (1e-8 : ℝ) ≤ xa ^ (4 : ℕ) := by
    nlinarith [hxa2, sq_nonneg (xa ^ 2 - 1e-4)]
  have hxa4pos : (0 : ℝ) < xa ^ (4 : ℕ) := pow_pos (by linarith) 4
  have hxb4pos : (0 : ℝ) < xb ^ (4 : ℕ) := pow_pos hxb0 4
  have h44 : xa ^ (4 : ℕ) < xb ^ (4 : ℕ) :=
    pow_lt_pow_left hxab (by linarith) (by norm_num)
  have ha8 : (v : ℝ) / xa ^ (8 : ℕ) = (v : ℝ) * (1 / xa ^ (4 : ℕ)) ^ 2 := by
    rw [show xa ^ (8 : ℕ) = (xa ^ (4 : ℕ)) ^ 2 by ring]
    field_simp
  have hb8 : (v : ℝ) / xb ^ (8 : ℕ) = (v : ℝ) * (1 / xb ^ (4 : ℕ)) ^ 2 := by
    rw [show xb ^ (8 : ℕ) = (xb ^ (4 : ℕ)) ^ 2 by ring]
    field_simp
  rw [ha8, hb8]
  obtain ⟨qa, hqa⟩ : ∃ q, q = (1 : ℝ) / xa ^ (4 : ℕ) := ⟨_, rfl⟩
  obtain ⟨qb, hqb⟩ : ∃ q, q = (1 : ℝ) / xb ^ (4 : ℕ) := ⟨_, rfl⟩
  rw [← hqa, ← hqb]
  have hq : qb < qa := by
    rw [hqa, hqb]
    exact one_div_lt_one_div_of_lt hxa4pos h44
  have hqb_pos : (0 : ℝ) < qb := by
    rw [hqb]
    exact one_div_pos.mpr hxb4pos
  have hqa_le : qa ≤ 1e8 := by
    rw [hqa, div_le_iff₀ hxa4pos]
    nlinarith
  have hv0R : (0 : ℝ) ≤ (v : ℝ) := by exact_mod_cast hv0
  have hvv : (v : ℝ) * (qa + qb) ≤ 2e-5 := by
    have : (v : ℝ) * (qa + qb) ≤ 1e-13 * (2e8) :=
      mul_le_mul hv (by linarith) (by linarith) (by norm_num)
    linarith
  have hfinal : (0 : ℝ) < (qa - qb) * (1 - (v : ℝ) * (qa + qb)) :=
    mul_pos (by linarith) (by linarith)
  nlinarith [hfinal]

lemma pvA_abs_anti_le {v : ℚ} (hv0 : 0 ≤ v) (hv : (v : ℝ) ≤ 1e-13) {a b : ℝ}
    (ha : -0.99 ≤ a) (hab : a ≤ b) (hb : b ≤ 5) :
    |presentValue (cfsA v) datesA b| ≤ |presentValue (cfsA v) datesA a| := by
  rcases eq_or_lt_of_le hab with rfl | h
  · exact le_rfl
  · exact (pvA_abs_anti hv0 hv ha h hb).le

lemma brackets_bounds_full {lo hi : ℝ} (h : (lo, hi) ∈ brackets) :
    -0.999 ≤ lo ∧ lo ≤ 10 ∧ -0.999 ≤ hi ∧ hi ≤ 10 := by
  simp only [brackets, List.mem_cons, List.mem_singleton, Prod.mk.injEq,
    List.not_mem_nil, or_false] at h
  rcases h with ⟨h1, h2⟩ | ⟨h1, h2⟩ | ⟨h1, h2⟩ | ⟨h1, h2⟩ | ⟨h1, h2⟩ | ⟨h1, h2⟩ |
    ⟨h1, h2⟩ | ⟨h1, h2⟩ | ⟨h1, h2⟩ <;> subst h1 <;> subst h2 <;> norm_num

/-- Newton never passes its guard on the grid-fallback family: the objective
is at most -2 wherever the guard would accept. -/
lemma seriesA_newton_none {v : ℚ} (hv0 : 0 ≤ v) (hv : (v : ℝ) ≤ 1e-10)
    (no : (ℝ → ℝ) → ℝ → Option ℝ) :
    newtonStage (presentValue (cfsA v) datesA) no guesses = none := by
  apply newtonStage_eq_none
  rintro r ⟨habs, hlo, hhi⟩
  have hle := pvA_le_neg_two hv0 hv hlo.le hhi.le
  rw [abs_lt] at habs
  linarith [habs.1]

/-- For terminal values up to 10^-13 no Brent bracket sees a sign change. -/
lemma seriesA1_brent_none {v : ℚ} (hv0 : 0 ≤ v) (hv : (v : ℝ) ≤ 1e-13)
    (bo : (ℝ → ℝ) → ℝ → ℝ → Option ℝ) :
    brentStage (presentValue (cfsA v) datesA) bo brackets = none := by
  apply brentStage_eq_none
  intro lo hi hmem hlt
  obtain ⟨h1, h2, h3, h4⟩ := brackets_bounds_full hmem
  have ha := pvA_neg_small hv0 hv h1 h2
  have hb := pvA_neg_small hv0 hv h3 h4
  have := mul_pos_of_neg_of_neg ha hb
  linarith

/-- The best value the grid search records for the fallback family is the
value at rate 5, which is comfortably below 100. -/
lemma seriesA1_bn_lt {v : ℚ} (hv0 : 0 ≤ v) (hv : (v : ℝ) ≤ 1e-13) :
    |presentValue (cfsA v) datesA (((5 : ℚ) : ℚ) : ℝ)| < 100 := by
  have hneg : presentValue (cfsA v) datesA (((5 : ℚ) : ℚ) : ℝ) < 0 := by
    have := pvA_neg_small hv0 hv (r := ((5 : ℚ) : ℝ)) (by norm_num) (by norm_num)
    exact this
  rw [abs_of_neg hneg, pvA_eval, clip_eq_self (by norm_num) (by norm_num)]
  have hv0R : (0 : ℝ) ≤ (v : ℝ) := by exact_mod_cast hv0
  have h6 : ((1 : ℝ) + ((5 : ℚ) : ℝ)) = 6 := by norm_num
  rw [h6]
  have : (0 : ℝ) ≤ (v : ℝ) / 6 ^ (8 : ℕ) := by positivity
  norm_num at this ⊢
  linarith

/-- The grid search lands exactly on the right endpoint 5 for the fallback
family: the objective size strictly decreases along the whole grid. -/
lemma seriesA1_grid {v : ℚ} (hv0 : 0 ≤ v) (hv : (v : ℝ) ≤ 1e-13) :
    gridBest (presentValue (cfsA v) datesA) =
      some (5, |presentValue (cfsA v) datesA ((5 : ℚ) : ℝ)|) := by
  have hpw : coarseGrid.Pairwise (fun (p q : ℚ) =>
      |presentValue (cfsA v) datesA ((q : ℚ) : ℝ)| <
        |presentValue (cfsA v) datesA ((p : ℚ) : ℝ)|) := by
    refine List.Pairwise.imp_of_mem ?_
      (linspaceQ_pairwise (by norm_num) (by norm_num))
    intro p q hp hq hlt
    have hp2 := linspaceQ_mem_bounds (by norm_num) (by norm_num) hp
    have hq2 := linspaceQ_mem_bounds (by norm_num) (by norm_num) hq
    apply pvA_abs_anti hv0 hv
    · have h2 : (((-0.99 : ℚ)) : ℝ) ≤ ((p : ℚ) : ℝ) := by exact_mod_cast hp2.1
      norm_num at h2 ⊢
      linarith
    · exact_mod_cast hlt
    · exact_mod_cast hq2.2
  have hne := coarseGrid_ne_nil
  have hcoarse := gridFold_last coarseGrid hne hpw none (by rintro b bn h; cases h)
  have hlast : coarseGrid.getLast hne = 5 := linspaceQ_getLast (by norm_num) hne
  rw [hlast] at hcoarse
  unfold gridBest
  rw [hcoarse]
  dsimp only
  rw [if_pos (seriesA1_bn_lt hv0 hv)]
  have hfine5 : fineGrid 5 = linspaceQ 4.5 5 1000 := by
    unfold fineGrid
    norm_num
  apply gridFold_no_improve
  intro p hp
  rw [hfine5] at hp
  have hb := linspaceQ_mem_bounds (by norm_num) (by norm_num) hp
  have hmono := pvA_abs_anti_le hv0 hv (a := ((p : ℚ) : ℝ)) (b := ((5 : ℚ) : ℝ))
    (by
      have : (4.5 : ℚ) ≤ p := hb.1
      have h2 : ((4.5 : ℚ) : ℝ) ≤ ((p : ℚ) : ℝ) := by exact_mod_cast this
      norm_num at h2 ⊢
      linarith)
    (by exact_mod_cast hb.2) (by norm_num)
  exact not_lt.mpr hmono

/-- The full run on the fallback series with terminal value 10^-13: every
oracle behavior falls through to the grid and returns exactly the grid
endpoint 5 — a rate whose absolute present value is about 2, far outside the
`< 1` acceptance band of the first two stages. -/
lemma seriesA1_result (oc : Oracles) :
    calculate_xirr (cfsA (1/10^13)) datesA oc = .ok ((5 : ℚ) : ℝ) := by
  have hv0 : (0 : ℚ) ≤ 1/10^13 := by norm_num
  have hv : ((1/10^13 : ℚ) : ℝ) ≤ 1e-13 := by norm_num
  rw [calculate_xirr_valid oc rfl (by norm_num [cfsA])]
  exact solveCascade_grid (seriesA_newton_none hv0 (by norm_num) oc.newton)
    (seriesA1_brent_none hv0 hv oc.brent) (seriesA1_grid hv0 hv)
    (seriesA1_bn_lt hv0 hv)

/-! ### The fallback family with terminal value 10^-10: the first Brent
bracket sees a sign change and `brentq` converges to the unique root, which
lies between -0.999 and -0.99. -/

/-- The positive root of `10^-10 * w^2 - w - 2 = 0`, i.e. the value of
`(1 + rate)^-4` at the root of the present value. -/
noncomputable def wRoot : ℝ := 5e9 * (1 + Real.sqrt (1 + 8e-10))

/-- `wRoot^(1/4)`, i.e. `(1 + rate)^-1` at the root. -/
noncomputable def uRoot : ℝ := wRoot ^ ((1 : ℝ) / 4)

/-- The unique root of the present value of `cfsA (1/10^10)` inside the
clipping range. -/
noncomputable def rRoot2 : ℝ := 1 / uRoot - 1

lemma sqrtTerm_bounds : 1 ≤ Real.sqrt (1 + 8e-10) ∧ Real.sqrt (1 + 8e-10) ≤ 1.1 := by
  constructor
  · rw [Real.one_le_sqrt]
    norm_num
  · calc Real.sqrt (1 + 8e-10) ≤ Real.sqrt 1.21 := Real.sqrt_le_sqrt (by norm_num)
    _ = 1.1 := by
        rw [show (1.21 : ℝ) = 1.1 ^ 2 by norm_num]
        exact Real.sqrt_sq (by norm_num)

lemma wRoot_bounds : (1e10 : ℝ) ≤ wRoot ∧ wRoot ≤ 1.05e10 := by
  obtain ⟨h1, h2⟩ := sqrtTerm_bounds
  unfold wRoot
  constructor <;> nlinarith

lemma wRoot_quad : (1e-10 : ℝ) * wRoot ^ 2 - wRoot - 2 = 0 := by
  have hs : Real.sqrt (1 + 8e-10) ^ 2 = 1 + 8e-10 :=
    Real.sq_sqrt (by norm_num)
  unfold wRoot
  linear_combination (2.5e9 : ℝ) * hs

lemma uRoot_pow : uRoot ^ (4 : ℕ) = wRoot := by
  have hw0 : (0 : ℝ) ≤ wRoot := by linarith [wRoot_bounds.1]
  unfold uRoot
  rw [← Real.rpow_natCast (wRoot ^ ((1 : ℝ) / 4)) 4, ← Real.rpow_mul hw0]
  norm_num

lemma uRoot_bounds : (316 : ℝ) ≤ uRoot ∧ uRoot ≤ 321 := by
  obtain ⟨h1, h2⟩ := wRoot_bounds
  have hu0 : (0 : ℝ) ≤ uRoot := Real.rpow_nonneg (by linarith) _
  constructor
  · by_contra h
    push_neg at h
    have hlt : uRoot ^ (4 : ℕ) < (316 : ℝ) ^ (4 : ℕ) :=
      pow_lt_pow_left h hu0 (by norm_num)
    rw [uRoot_pow] at hlt
    norm_num at hlt
    linarith
  · by_contra h
    push_neg at h
    have hlt : (321 : ℝ) ^ (4 : ℕ) < uRoot ^ (4 : ℕ) :=
      pow_lt_pow_left h (by norm_num) (by norm_num)
    rw [uRoot_pow] at hlt
    norm_num at hlt
    linarith

lemma rRoot2_bounds : -0.999 < rRoot2 ∧ rRoot2 < -0.99 := by
  obtain ⟨h1, h2⟩ := uRoot_bounds
  have hu0 : (0 : ℝ) < uRoot := by linarith
  unfold rRoot2
  constructor
  · have : (1 : ℝ) / 321 ≤ 1 / uRoot := one_div_le_one_div_of_le hu0 h2
    have h321 : (0.003 : ℝ) < 1 / 321 := by norm_num
    linarith
  · have : (1 : ℝ) / uRoot ≤ 1 / 316 := one_div_le_one_div_of_le (by norm_num) h1
    have h316 : (1 : ℝ) / 316 < 0.0032 := by norm_num
    linarith

/-- `rRoot2` really is a root of the present value of the series with
terminal value 10^-10. -/
lemma pvA2_root : presentValue (cfsA (1/10^10)) datesA rRoot2 = 0 := by
  obtain ⟨hb1, hb2⟩ := rRoot2_bounds
  rw [pvA_eval, clip_eq_self (by linarith) (by linarith)]
  have hu0 : (0 : ℝ) < uRoot := by linarith [uRoot_bounds.1]
  have hw0 : (0 : ℝ) < wRoot := by linarith [wRoot_bounds.1]
  have hx : 1 + rRoot2 = 1 / uRoot := by
    unfold rRoot2
    ring
  rw [hx]
  have h4 : ((1 : ℝ) / uRoot) ^ (4 : ℕ) = 1 / wRoot := by
    rw [div_pow, one_pow, uRoot_pow]
  have h8 : ((1 : ℝ) / uRoot) ^ (8 : ℕ) = 1 / wRoot ^ 2 := by
    rw [div_pow, one_pow, show uRoot ^ (8 : ℕ) = (uRoot ^ (4 : ℕ)) ^ 2 by ring,
      uRoot_pow]
  rw [h4, h8]
  have hq := wRoot_quad
  have hcast : ((1/10^10 : ℚ) : ℝ) = 1e-10 := by norm_num
  rw [hcast]
  rw [one_div_one_div, div_div_eq_mul_div, div_one]
  linarith [hq]

open Classical in
/-- A realizable oracle run: scipy newton raising on every guess (the
objective has no root in the guard band for the small-terminal family), and
brentq returning the root of the objective on the bracket that starts at
-0.999. -/
noncomputable def ocBrent : Oracles :=
  ⟨fun _ _ => none, fun _ lo _ => if lo = (-0.999 : ℝ) then some rRoot2 else none⟩

lemma newtonStage_ocBrent (f : ℝ → ℝ) (gs : List ℝ) :
    newtonStage f ocBrent.newton gs = none := by
  induction gs with
  | nil => rfl
  | cons g gs ih =>
    rw [newtonStage]
    exact ih

/-- The full run on the fallback series with terminal value 10^-10 under
`ocBrent`: newton fails, the first bracket (-0.999, 10) shows a sign change,
and brentq's root is returned. -/
lemma seriesA2_result :
    calculate_xirr (cfsA (1/10^10)) datesA ocBrent = .ok rRoot2 := by
  rw [calculate_xirr_valid ocBrent rfl (by norm_num [cfsA])]
  apply solveCascade_brent (newtonStage_ocBrent _ _)
  have hsign : presentValue (cfsA (1/10^10)) datesA (-0.999) *
      presentValue (cfsA (1/10^10)) datesA 10 < 0 := by
    have hpos : (0 : ℝ) < presentValue (cfsA (1/10^10)) datesA (-0.999) := by
      rw [pvA_eval, clip_eq_self (by norm_num) (by norm_num)]
      norm_num
    have hneg : presentValue (cfsA (1/10^10)) datesA 10 < 0 := by
      rw [pvA_eval, clip_eq_self (by norm_num) (by norm_num)]
      norm_num
    exact mul_neg_of_pos_of_neg hpos hneg
  rw [show brackets = ((-0.999, 10) : ℝ × ℝ) ::
    [(-0.999, 5), (-0.999, 2), (-0.99, 10), (-0.99, 5), (-0.99, 2),
      (-0.95, 10), (-0.95, 5), (-0.95, 2)] from rfl]
  rw [brentStage, if_pos hsign]
  have hbo : ocBrent.brent (presentValue (cfsA (1/10^10)) datesA) (-0.999) 10 =
      some rRoot2 := by
    show (if (-0.999 : ℝ) = (-0.999 : ℝ) then some rRoot2 else none) = some rRoot2
    rw [if_pos rfl]
  rw [hbo]
  dsimp only
  rw [if_pos (by rw [pvA2_root]; norm_num)]

/-! ### Claim C1 -/

/-- Counterexample to claim C1 as stated: on the fallback series with
terminal value 10^-13 the cascade (under the realizable run in which scipy
newton raises on every guess and brentq is never invoked because no bracket
shows a sign change) returns the rate 5 from the grid-search stage, yet
`|presentValue(5)|` is about 2, violating the claimed acceptable-root bound
`|presentValue(rate)| < 1.0`. -/
theorem C1_counterexample :
    calculate_xirr (cfsA (1/10^13)) datesA ocNone = .ok ((5 : ℚ) : ℝ) ∧
    ¬ |presentValue (cfsA (1/10^13)) datesA ((5 : ℚ) : ℝ)| < 1 := by
  refine ⟨seriesA1_result ocNone, ?_⟩
  have hle : presentValue (cfsA (1/10^13)) datesA ((5 : ℚ) : ℝ) ≤ -2 :=
    pvA_le_neg_two (by norm_num) (by norm_num) (by norm_num) (by norm_num)
  rw [abs_of_nonpos (by linarith), not_lt]
  linarith

/-- Claim C1 amended: what the cascade actually guarantees for a returned
rate is `|presentValue(rate)| < 100` and `rate ∈ [-0.999, 10]`.  Stage by
stage: the Newton stage checks `|presentValue| < 1` and `(-0.99, 10)`; the
Brent stage checks `|presentValue| < 1` and returns inside a bracket, the
widest being `[-0.999, 10]`; the grid fallback only checks
`|presentValue| < 100` on `[-0.99, 5]`. -/
theorem C1_stage_guarantees (cash_flows : List ℚ) (dates : List ℤ) (oc : Oracles)
    (hb : ∀ f lo hi r, oc.brent f lo hi = some r → lo ≤ r ∧ r ≤ hi) (r : ℝ)
    (h : calculate_xirr cash_flows dates oc = .ok r) :
    |presentValue cash_flows dates r| < 100 ∧ -0.999 ≤ r ∧ r ≤ 10 := by
  by_cases hlen : cash_flows.length ≠ dates.length
  · rw [calculate_xirr, if_pos hlen] at h
    cases h
  by_cases h2 : cash_flows.length < 2
  · rw [calculate_xirr, if_neg hlen, if_pos h2] at h
    cases h
  push_neg at hlen
  rw [calculate_xirr_valid oc hlen (Nat.not_lt.mp h2)] at h
  rcases solveCascade_eq_ok h with hn | ⟨-, hbr⟩ | ⟨-, -, br, bn, hg, hlt, rfl⟩
  · obtain ⟨habs, hlo, hhi⟩ := newtonStage_guard hn
    exact ⟨by linarith, by linarith, by linarith⟩
  · obtain ⟨lo, hi, hmem, -, hbo, habs⟩ := brentStage_spec hbr
    obtain ⟨hlo, hhi⟩ := brackets_bounds hmem
    obtain ⟨ha, hb2⟩ := hb _ lo hi r hbo
    exact ⟨by linarith, hlo.trans ha, hb2.trans hhi⟩
  · obtain ⟨⟨hm1, hm2⟩, hval⟩ := gridBest_mem hg
    have hc1 : ((-0.99 : ℚ) : ℝ) ≤ ((br : ℚ) : ℝ) := by exact_mod_cast hm1
    have hc2 : ((br : ℚ) : ℝ) ≤ ((5 : ℚ) : ℝ) := by exact_mod_cast hm2
    norm_num at hc1 hc2
    rw [← hval]
    exact ⟨hlt, by linarith, by linarith⟩

/-- Witness for the amended C1 at the concrete fallback run. -/
theorem C1_witness :
    |presentValue (cfsA (1/10^13)) datesA ((5 : ℚ) : ℝ)| < 100 ∧
    -0.999 ≤ ((5 : ℚ) : ℝ) ∧ ((5 : ℚ) : ℝ) ≤ 10 :=
  C1_stage_guarantees (cfsA (1/10^13)) datesA ocNone
    (fun f lo hi r h => by simp [ocNone] at h) ((5 : ℚ) : ℝ)
    (seriesA1_result ocNone)

/-! ### Claim C10 -/

/-- Claim C10: a returned rate always lies in `[-0.999, 10]` (under the
brentq contract that its result lies inside the bracket it was given): the
Newton stage range-checks against `(-0.99, 10)`, every Brent bracket is
inside `[-0.999, 10]`, and both grid passes only visit `[-0.99, 5]`. -/
theorem C10_output_range (cash_flows : List ℚ) (dates : List ℤ) (oc : Oracles)
    (hb : ∀ f lo hi r, oc.brent f lo hi = some r → lo ≤ r ∧ r ≤ hi) (r : ℝ)
    (h : calculate_xirr cash_flows dates oc = .ok r) :
    -0.999 ≤ r ∧ r ≤ 10 := by
  by_cases hlen : cash_flows.length ≠ dates.length
  · rw [calculate_xirr, if_pos hlen] at h
    cases h
  by_cases h2 : cash_flows.length < 2
  · rw [calculate_xirr, if_neg hlen, if_pos h2] at h
    cases h
  push_neg at hlen
  rw [calculate_xirr_valid oc hlen (Nat.not_lt.mp h2)] at h
  rcases solveCascade_eq_ok h with hn | ⟨-, hbr⟩ | ⟨-, -, br, bn, hg, -, rfl⟩
  · obtain ⟨-, hlo, hhi⟩ := newtonStage_guard hn
    exact ⟨by linarith, by linarith⟩
  · obtain ⟨lo, hi, hmem, -, hbo, -⟩ := brentStage_spec hbr
    obtain ⟨hlo, hhi⟩ := brackets_bounds hmem
    obtain ⟨ha, hb2⟩ := hb _ lo hi r hbo
    exact ⟨hlo.trans ha, hb2.trans hhi⟩
  · obtain ⟨⟨hm1, hm2⟩, -⟩ := gridBest_mem hg
    have hc1 : ((-0.99 : ℚ) : ℝ) ≤ ((br : ℚ) : ℝ) := by exact_mod_cast hm1
    have hc2 : ((br : ℚ) : ℝ) ≤ ((5 : ℚ) : ℝ) := by exact_mod_cast hm2
    norm_num at hc1 hc2
    exact ⟨by linarith, by linarith⟩

/-- Witness for C10 at the concrete fallback run. -/
theorem C10_witness :
    -0.999 ≤ ((5 : ℚ) : ℝ) ∧ ((5 : ℚ) : ℝ) ≤ 10 :=
  C10_output_range (cfsA (1/10^13)) datesA ocNone
    (fun f lo hi r h => by simp [ocNone] at h) ((5 : ℚ) : ℝ)
    (seriesA1_result ocNone)

/-! ### Claim C6 -/

/-- Counterexample to claim C6 as stated: two series identical except for
the terminal valuation (10^-13 versus the larger 10^-10), on a realizable
oracle run (newton raises everywhere; brentq returns the exact root of the
objective on the bracket starting at -0.999).  Both calls return a rate, yet
the larger terminal valuation produces the smaller rate: the small-terminal
series falls through to the grid search and returns 5, while the larger
terminal value creates a sign change at -0.999 so the Brent stage returns a
root near -0.9968. -/
theorem C6_counterexample :
    ((1 : ℚ)/10^13 ≤ 1/10^10) ∧
    calculate_xirr (cfsA (1/10^13)) datesA ocBrent = .ok ((5 : ℚ) : ℝ) ∧
    calculate_xirr (cfsA (1/10^10)) datesA ocBrent = .ok rRoot2 ∧
    rRoot2 < ((5 : ℚ) : ℝ) := by
  refine ⟨by norm_num, seriesA1_result ocBrent, seriesA2_result, ?_⟩
  have h := rRoot2_bounds.2
  have h5 : ((5 : ℚ) : ℝ) = 5 := by norm_num
  rw [h5]
  linarith

/-- Claim C6 amended: the monotonicity that does hold concerns the exact
root of `presentValue`, not the cascade's returned rate.  For a two-flow
series (one investment at day 0, the terminal valuation four years later),
exact roots of the present value inside the clipping range are monotone in
the terminal valuation. -/
theorem C6_root_monotone (A V1 V2 : ℚ) (r1 r2 : ℝ)
    (hA : 0 < A) (hV1 : 0 < V1) (hV12 : V1 ≤ V2)
    (h1a : -0.9999 ≤ r1) (h1b : r1 ≤ 100) (h2a : -0.9999 ≤ r2) (h2b : r2 ≤ 100)
    (hroot1 : presentValue [-A, V1] [0, 1461] r1 = 0)
    (hroot2 : presentValue [-A, V2] [0, 1461] r2 = 0) :
    r1 ≤ r2 := by
  rw [pv4_eval, clip_eq_self h1a h1b] at hroot1
  rw [pv4_eval, clip_eq_self h2a h2b] at hroot2
  push_cast at hroot1 hroot2
  have hx1 : (0 : ℝ) < 1 + r1 := by linarith
  have hx2 : (0 : ℝ) < 1 + r2 := by linarith
  have hp1 : (0 : ℝ) < (1 + r1) ^ (4 : ℕ) := pow_pos hx1 4
  have hp2 : (0 : ℝ) < (1 + r2) ^ (4 : ℕ) := pow_pos hx2 4
  have hAR : (0 : ℝ) < (A : ℝ) := by exact_mod_cast hA
  have hV12R : (V1 : ℝ) ≤ (V2 : ℝ) := by exact_mod_cast hV12
  have e1 : (V1 : ℝ) = (A : ℝ) * (1 + r1) ^ (4 : ℕ) := by
    field_simp at hroot1
    linarith
  have e2 : (V2 : ℝ) = (A : ℝ) * (1 + r2) ^ (4 : ℕ) := by
    field_simp at hroot2
    linarith
  have e3 : (A : ℝ) * (1 + r1) ^ (4 : ℕ) ≤ (A : ℝ) * (1 + r2) ^ (4 : ℕ) := by
    rw [← e1, ← e2]
    exact hV12R
  have e4 : (1 + r1) ^ (4 : ℕ) ≤ (1 + r2) ^ (4 : ℕ) :=
    le_of_mul_le_mul_left e3 hAR
  have := le_of_pow_le_pow_left (by norm_num) hx2.le e4
  linarith

/-- Witness for the amended C6: 16-fold growth over 4 years roots at rate 1,
81-fold growth roots at rate 2. -/
theorem C6_witness : (1 : ℝ) ≤ 2 :=
  C6_root_monotone 1000 16000 81000 1 2 (by norm_num) (by norm_num) (by norm_num)
    (by norm_num) (by norm_num) (by norm_num) (by norm_num)
    (by
      rw [pv4_eval, clip_eq_self (by norm_num) (by norm_num)]
      norm_num)
    (by
      rw [pv4_eval, clip_eq_self (by norm_num) (by norm_num)]
      norm_num)

/-! ### Claim C5: the canonical 10% series `[(-1000, day 0), (+1100, day 365)]`

The exact annualized root is `1.1^(1461/1460) - 1 ≈ 0.1000716` (the source
measures 365 elapsed days as 1460/1461 of a 365.25-day year), which is
within 10^-4 of 0.10. -/

lemma pow_gap_real : ((1.1 : ℝ)) ^ (1461 : ℕ) < ((1.1001 : ℝ)) ^ (1460 : ℕ) := by
  norm_num

/-- The exact root of the canonical series: `1.1^(1461/1460) - 1`. -/
noncomputable def rStar : ℝ := (1.1 : ℝ) ^ ((1461 : ℝ) / 1460) - 1

lemma rpow_lower : (1.1 : ℝ) < (1.1 : ℝ) ^ ((1461 : ℝ) / 1460) := by
  have h := Real.rpow_lt_rpow_of_exponent_lt (show (1 : ℝ) < 1.1 by norm_num)
    (show (1 : ℝ) < (1461 : ℝ) / 1460 by norm_num)
  rwa [Real.rpow_one] at h

lemma rpow_upper : (1.1 : ℝ) ^ ((1461 : ℝ) / 1460) < 1.1001 := by
  have key : ((1.1 : ℝ) ^ ((1461 : ℝ) / 1460)) ^ (1460 : ℕ) = (1.1 : ℝ) ^ (1461 : ℕ) := by
    rw [← Real.rpow_natCast ((1.1 : ℝ) ^ ((1461 : ℝ) / 1460)) 1460,
      ← Real.rpow_mul (by norm_num : (0 : ℝ) ≤ 1.1),
      show ((1461 : ℝ) / 1460) * ((1460 : ℕ) : ℝ) = ((1461 : ℕ) : ℝ) by push_cast; norm_num,
      Real.rpow_natCast]
  have hlt : ((1.1 : ℝ) ^ ((1461 : ℝ) / 1460)) ^ (1460 : ℕ) < (1.1001 : ℝ) ^ (1460 : ℕ) := by
    rw [key]
    exact pow_gap_real
  exact lt_of_pow_lt_pow_left 1460 (by norm_num) hlt

lemma rStar_bounds : 0.1 < rStar ∧ rStar < 0.1001 := by
  unfold rStar
  constructor
  · linarith [rpow_lower]
  · linarith [rpow_upper]

/-- `rStar` is an exact root of the canonical present value. -/
lemma pvC5_rStar : presentValue [-1000, 1100] [0, 365] rStar = 0 := by
  obtain ⟨hb1, hb2⟩ := rStar_bounds
  rw [pvB_eval, clip_eq_self (by linarith) (by linarith)]
  have hx : 1 + rStar = (1.1 : ℝ) ^ ((1461 : ℝ) / 1460) := by
    unfold rStar
    ring
  rw [hx, show ((((1460 : ℚ) / 1461 : ℚ)) : ℝ) = (1460 : ℝ) / 1461 by norm_num]
  have hcomp : ((1.1 : ℝ) ^ ((1461 : ℝ) / 1460)) ^ ((1460 : ℝ) / 1461) = 1.1 := by
    rw [← Real.rpow_mul (by norm_num : (0 : ℝ) ≤ 1.1),
      show ((1461 : ℝ) / 1460) * ((1460 : ℝ) / 1461) = 1 by norm_num,
      Real.rpow_one]
  rw [hcomp]
  norm_num

/-- Claim C5: with the Newton stage idealized to its contract — scipy newton
from the first guess 0.1 returning a root of the (exact-arithmetic)
objective — `calculate_xirr` on `[(-1000, day 0), (+1100, day 365)]` returns
that root, and it is within 10^-4 of 0.10, where the discounting measures
365 days as 365/365.25 years from the earliest date. -/
theorem C5_ten_percent (oc : Oracles) (r : ℝ)
    (hn : oc.newton (presentValue [-1000, 1100] [0, 365]) 0.1 = some r)
    (hroot : presentValue [-1000, 1100] [0, 365] r = 0) :
    calculate_xirr [-1000, 1100] [0, 365] oc = .ok r ∧ |r - 0.1| < 1e-4 := by
  have hb : 0.1 < r ∧ r < 0.1001 := by
    have heval := hroot
    rw [pvB_eval,
      show ((((1460 : ℚ) / 1461 : ℚ)) : ℝ) = (1460 : ℝ) / 1461 by norm_num] at heval
    push_cast at heval
    have hx0 : (0 : ℝ) < 1 + clip r := by
      have := (clip_bounds r).1
      linarith
    have hxT : (0 : ℝ) < (1 + clip r) ^ ((1460 : ℝ) / 1461) :=
      Real.rpow_pos_of_pos hx0 _
    have hpow : (1 + clip r) ^ ((1460 : ℝ) / 1461) = 1.1 := by
      have hne : (1 + clip r) ^ ((1460 : ℝ) / 1461) ≠ 0 := ne_of_gt hxT
      field_simp at heval
      linarith
    have hgt : (1.1 : ℝ) < 1 + clip r := by
      by_contra hcon
      push_neg at hcon
      have h1 : (1 + clip r) ^ ((1460 : ℝ) / 1461) ≤ (1.1 : ℝ) ^ ((1460 : ℝ) / 1461) :=
        Real.rpow_le_rpow hx0.le hcon (by norm_num)
      have h2 : (1.1 : ℝ) ^ ((1460 : ℝ) / 1461) < (1.1 : ℝ) ^ (1 : ℝ) :=
        Real.rpow_lt_rpow_of_exponent_lt (by norm_num) (by norm_num)
      rw [Real.rpow_one] at h2
      rw [hpow] at h1
      linarith
    have hlt2 : 1 + clip r < 1.1001 := by
      by_contra hcon
      push_neg at hcon
      have h1 : (1.1001 : ℝ) ^ ((1460 : ℝ) / 1461) ≤
          (1 + clip r) ^ ((1460 : ℝ) / 1461) :=
        Real.rpow_le_rpow (by norm_num) hcon (by norm_num)
      have h2 : (1.1 : ℝ) < (1.1001 : ℝ) ^ ((1460 : ℝ) / 1461) := by
        by_contra hcon2
        push_neg at hcon2
        have h3 : ((1.1001 : ℝ) ^ ((1460 : ℝ) / 1461)) ^ (1461 : ℕ) ≤
            (1.1 : ℝ) ^ (1461 : ℕ) :=
          pow_le_pow_left (Real.rpow_nonneg (by norm_num) _) hcon2 1461
        have h4 : ((1.1001 : ℝ) ^ ((1460 : ℝ) / 1461)) ^ (1461 : ℕ) =
            (1.1001 : ℝ) ^ (1460 : ℕ) := by
          rw [← Real.rpow_natCast ((1.1001 : ℝ) ^ ((1460 : ℝ) / 1461)) 1461,
            ← Real.rpow_mul (by norm_num : (0 : ℝ) ≤ 1.1001),
            show ((1460 : ℝ) / 1461) * ((1461 : ℕ) : ℝ) = ((1460 : ℕ) : ℝ) by
              push_cast; norm_num,
            Real.rpow_natCast]
        rw [h4] at h3
        linarith [pow_gap_real]
      rw [hpow] at h1
      linarith
    have hclip : clip r = r := eq_clip_of_interior (by linarith) (by linarith)
    rw [hclip] at hgt hlt2
    exact ⟨by linarith, by linarith⟩
  refine ⟨?_, ?_⟩
  · rw [calculate_xirr_valid oc rfl (by norm_num)]
    apply solveCascade_newton
    rw [show guesses = (0.1 : ℝ) :: [0, -0.5, 0.5, 1] from rfl, newtonStage, hn]
    dsimp only
    rw [if_pos]
    exact ⟨by rw [hroot]; norm_num, by linarith [hb.1], by linarith [hb.2]⟩
  · rw [abs_lt]
    exact ⟨by linarith [hb.1], by linarith [hb.2]⟩

open Classical in
/-- A realizable oracle: newton from guess 0.1 converging to the exact root
of the canonical objective. -/
noncomputable def oc5 : Oracles :=
  ⟨fun _ g => if g = (0.1 : ℝ) then some rStar else none, fun _ _ _ => none⟩

/-- Witness for C5 at the explicit root. -/
theorem C5_witness :
    calculate_xirr [-1000, 1100] [0, 365] oc5 = .ok rStar ∧ |rStar - 0.1| < 1e-4 :=
  C5_ten_percent oc5 rStar
    (by
      show (if (0.1 : ℝ) = 0.1 then some rStar else none) = some rStar
      rw [if_pos rfl])
    pvC5_rStar

end XirrCalc
